import Mathlib

/-!
Verification of the saga-mcp task dependency resolution engine and its
audit/activity logging subsystem.

The definitions below are a shallow embedding of the TypeScript source:
`src/tools/tasks.ts` (dependency helpers, `handleTaskUpdate`),
`src/tools/activity.ts` (`handleTaskBatchUpdate`),
`src/helpers/activity-logger.ts` (`logActivity`, `logEntityUpdate`),
`src/helpers/sql-builder.ts` (`buildUpdate`), with the SQLite store modelled as
an explicit state record.  Timestamps (`datetime('now')` and `Date.now()`) are
modelled by a single millisecond clock `DB.now` that is constant within one
logical operation.  Each SQL statement that mutates the store is one `commit`;
the list of committed states is kept so that per-statement durability (the
absence of an enclosing transaction in `handleTaskUpdate`) can be stated.
`db.transaction` in `handleTaskBatchUpdate` is modelled by running the body on
the plain state and committing once on success and not at all on failure,
which is the documented rollback behaviour of better-sqlite3.
-/

namespace Saga

/-- Workflow status of a task, `CHECK (status IN (...))` in `schema.ts`. -/
inductive Status where
  | todo
  | inProgress
  | review
  | done
  | blocked
deriving DecidableEq

/-- Task priority, `CHECK (priority IN (...))` in `schema.ts`. -/
def Status.str : Status → String
  | .todo => "todo"
  | .inProgress => "in_progress"
  | .review => "review"
  | .done => "done"
  | .blocked => "blocked"

inductive Priority where
  | low
  | medium
  | high
  | critical
deriving DecidableEq

def Priority.str : Priority → String
  | .low => "low"
  | .medium => "medium"
  | .high => "high"
  | .critical => "critical"

/-- A value stored in the `old_value` / `new_value` columns of `activity_log`:
either text or the numeric value bound for auto-tracked hours. -/
inductive LogVal where
  | str (s : String)
  | num (q : ℚ)
deriving DecidableEq

/-- One row of the `tasks` table (the columns the core reads or writes). -/
structure Task where
  id : Nat
  epicId : Nat
  title : String
  description : Option String
  status : Status
  priority : Priority
  sortOrder : Int
  assignedTo : Option String
  estimatedHours : Option ℚ
  actualHours : Option ℚ
  dueDate : Option String
  sourceRef : Option String
  tags : String
  updatedAt : Nat
deriving DecidableEq

/-- One row of the append-only `activity_log` table. -/
structure LogEntry where
  entityType : String
  entityId : Nat
  action : String
  fieldName : Option String
  oldValue : Option LogVal
  newValue : Option LogVal
  summary : String
  createdAt : Nat
deriving DecidableEq

/-- The durable store: `tasks`, `task_dependencies` (ordered pairs
`(task_id, depends_on_task_id)`), `activity_log` in insertion order, and the
wall clock in milliseconds. -/
structure DB where
  tasks : List Task
  deps : List (Nat × Nat)
  log : List LogEntry
  now : Nat
deriving DecidableEq

instance exceptDecEq {ε α : Type} [DecidableEq ε] [DecidableEq α] :
    DecidableEq (Except ε α) := fun x y =>
  match x, y with
  | Except.ok a, Except.ok b =>
    if h : a = b then isTrue (by simp [h]) else isFalse (by simp [h])
  | Except.ok _, Except.error _ => isFalse (by simp)
  | Except.error _, Except.ok _ => isFalse (by simp)
  | Except.error a, Except.error b =>
    if h : a = b then isTrue (by simp [h]) else isFalse (by simp [h])

/-- `SELECT * FROM tasks WHERE id = ?`. -/
def findTask (db : DB) (tid : Nat) : Option Task :=
  db.tasks.find? (fun t => t.id == tid)

def statusOf (db : DB) (tid : Nat) : Option Status :=
  (findTask db tid).map Task.status

def actualHoursOf (db : DB) (tid : Nat) : Option (Option ℚ) :=
  (findTask db tid).map Task.actualHours

/-- `SELECT depends_on_task_id FROM task_dependencies WHERE task_id = ?`. -/
def predEdges (db : DB) (tid : Nat) : List Nat :=
  (db.deps.filter (fun e => e.1 == tid)).map Prod.snd

/-- `getUnmetDependencies`: the join of the predecessor edges with `tasks`,
keeping rows whose status is not `done`.  An edge to a missing task produces
no row, exactly as the SQL inner join does. -/
def unmetDeps (db : DB) (tid : Nat) : List Task :=
  (predEdges db tid).filterMap (fun p =>
    match findTask db p with
    | some t => if t.status = Status.done then none else some t
    | none => none)

def unmetCount (db : DB) (tid : Nat) : Nat :=
  (unmetDeps db tid).length

/-- `SELECT task_id FROM task_dependencies WHERE depends_on_task_id = ?`. -/
def successorIds (db : DB) (tid : Nat) : List Nat :=
  (db.deps.filter (fun e => e.2 == tid)).map Prod.fst

/-- A state paired with the list of individually committed states: outside a
transaction better-sqlite3 autocommits every statement, so each mutating
statement appends the state it leaves behind. -/
abbrev St := DB × List DB

def commit (f : DB → DB) (s : St) : St :=
  (f s.1, s.2 ++ [f s.1])

def appendLog (e : LogEntry) (db : DB) : DB :=
  { db with log := db.log ++ [e] }

/-- `UPDATE tasks SET status = ?, updated_at = datetime('now') WHERE id = ?`. -/
def setStatusNow (tid : Nat) (st : Status) (db : DB) : DB :=
  { db with tasks := db.tasks.map (fun t =>
      if t.id = tid then { t with status := st, updatedAt := db.now } else t) }

/-- `UPDATE tasks SET actual_hours = ? WHERE id = ?` (does not touch
`updated_at`, matching the source). -/
def setActualHours (tid : Nat) (h : ℚ) (db : DB) : DB :=
  { db with tasks := db.tasks.map (fun t =>
      if t.id = tid then { t with actualHours := some h } else t) }

/-- `logActivity` from `activity-logger.ts`: one `INSERT INTO activity_log`. -/
def logActivity (etype : String) (eid : Nat) (action : String)
    (fieldName : Option String) (oldV newV : Option LogVal) (summary : String)
    (s : St) : St :=
  commit (fun db => appendLog
    { entityType := etype, entityId := eid, action := action,
      fieldName := fieldName, oldValue := oldV, newValue := newV,
      summary := summary, createdAt := db.now } db) s

/-- `String(row[field] ?? '')` for the tracked task fields. -/
def taskFieldStr (f : String) (t : Task) : String :=
  if f = "status" then t.status.str
  else if f = "priority" then t.priority.str
  else if f = "assigned_to" then t.assignedTo.getD ""
  else if f = "title" then t.title
  else ""

/-- `logEntityUpdate` from `activity-logger.ts`: for each tracked field whose
stringified old/new values differ, one `logActivity` call; the action is
`status_changed` for the `status` field and `updated` otherwise. -/
def logEntityUpdate (etype : String) (eid : Nat) (ename : String)
    (oldR newR : Task) (tracked : List String) (s : St) : St :=
  tracked.foldl (fun s f =>
    let ov := taskFieldStr f oldR
    let nv := taskFieldStr f newR
    if ov = nv then s
    else logActivity etype eid (if f = "status" then "status_changed" else "updated")
      (some f) (some (LogVal.str ov)) (some (LogVal.str nv))
      (etype ++ " " ++ ename ++ " " ++ f ++ ": " ++ ov ++ " -> " ++ nv) s) s

/-- Modelled from the spec: the DDL of the `task_dependencies` table is not in
the source tree (only its readers and writers are), so edge storage follows
the spec text for the Dependency Edge: at most one edge per ordered pair,
re-adding an existing pair is a no-op. -/
def insertDepEdge (tid did : Nat) (db : DB) : DB :=
  if (tid, did) ∈ db.deps then db else { db with deps := db.deps ++ [(tid, did)] }

/-- `setDependencies` from `tasks.ts`: `DELETE FROM task_dependencies WHERE
task_id = ?`, then one insert per listed id, skipping a self-dependency. -/
def setDependencies (tid : Nat) (dependsOn : List Nat) (s : St) : St :=
  let s1 := commit (fun db => { db with deps := db.deps.filter (fun e => e.1 != tid) }) s
  dependsOn.foldl (fun s d => if d = tid then s else commit (insertDepEdge tid d) s) s1

/-- `evaluateAndUpdateDependencies` from `tasks.ts`. -/
def evaluateAndUpdateDependencies (tid : Nat) (s : St) : St :=
  match findTask s.1 tid with
  | none => s
  | some task =>
    if predEdges s.1 tid = [] then s
    else
      let unmet := unmetDeps s.1 tid
      if 0 < unmet.length ∧ task.status ≠ Status.blocked ∧ task.status ≠ Status.done then
        logActivity "task" tid "status_changed" (some "status")
          (some (LogVal.str task.status.str)) (some (LogVal.str "blocked"))
          ("Task " ++ task.title ++ " auto-blocked: depends on " ++
            String.intercalate ", " (unmet.map (fun u => "#" ++ toString u.id)))
          (commit (setStatusNow tid Status.blocked) s)
      else if unmet.length = 0 ∧ task.status = Status.blocked then
        logActivity "task" tid "status_changed" (some "status")
          (some (LogVal.str "blocked")) (some (LogVal.str "todo"))
          ("Task " ++ task.title ++ " auto-unblocked: all dependencies met")
          (commit (setStatusNow tid Status.todo) s)
      else s

/-- `reevaluateDownstream` from `tasks.ts`: the successor list is read once,
then every direct successor is reevaluated in order. -/
def reevaluateDownstream (tid : Nat) (s : St) : St :=
  (successorIds s.1 tid).foldl (fun s x => evaluateAndUpdateDependencies x s) s

/-- Arguments of the `task_update` tool (absent JSON fields are `none`);
`sourceRef` and `tags` carry their serialized form. -/
structure UpdateArgs where
  id : Nat
  title : Option String
  description : Option String
  status : Option Status
  priority : Option Priority
  assignedTo : Option String
  estimatedHours : Option ℚ
  actualHours : Option ℚ
  dueDate : Option String
  sourceRef : Option String
  sortOrder : Option Int
  tags : Option String
  dependsOn : Option (List Nat)
deriving DecidableEq

def updOpt {α : Type} (arg cur : Option α) : Option α :=
  match arg with
  | some v => some v
  | none => cur

/-- `buildUpdate` returns a statement exactly when one of the allowed columns
is present in the arguments. -/
def hasTaskUpdateCols (a : UpdateArgs) : Bool :=
  a.title.isSome || a.description.isSome || a.status.isSome || a.priority.isSome ||
  a.assignedTo.isSome || a.estimatedHours.isSome || a.actualHours.isSome ||
  a.dueDate.isSome || a.sourceRef.isSome || a.sortOrder.isSome || a.tags.isSome

/-- The row produced by the `buildUpdate` statement (`RETURNING *`): each
supplied column overwritten, plus `updated_at = datetime('now')`. -/
def taskColsRow (a : UpdateArgs) (now : Nat) (t : Task) : Task :=
  { id := t.id, epicId := t.epicId,
    title := Option.getD a.title t.title,
    description := updOpt a.description t.description,
    status := Option.getD a.status t.status,
    priority := Option.getD a.priority t.priority,
    sortOrder := Option.getD a.sortOrder t.sortOrder,
    assignedTo := updOpt a.assignedTo t.assignedTo,
    estimatedHours := updOpt a.estimatedHours t.estimatedHours,
    actualHours := updOpt a.actualHours t.actualHours,
    dueDate := updOpt a.dueDate t.dueDate,
    sourceRef := updOpt a.sourceRef t.sourceRef,
    tags := Option.getD a.tags t.tags,
    updatedAt := now }

def applyTaskColumns (a : UpdateArgs) (db : DB) : DB :=
  { db with tasks := db.tasks.map (fun t =>
      if t.id = a.id then taskColsRow a db.now t else t) }

def trackedTaskFields : List String :=
  ["status", "priority", "assigned_to", "title"]

def joinIds (sep : String) (l : List Nat) : String :=
  String.intercalate sep (l.map toString)

/-- The `if (args.depends_on !== undefined)` block of `handleTaskUpdate`:
replace the edge set, log the replacement, reevaluate the task itself. -/
def taskDepBlock (tid : Nat) (l : List Nat) (title : String) (s : St) : St :=
  let s1 := setDependencies tid l s
  let s2 := logActivity "task" tid "updated" (some "depends_on") none
    (some (LogVal.str (if 0 < l.length then joinIds "," l else "(none)")))
    ("Task " ++ title ++ " dependencies updated: [" ++ joinIds ", " l ++ "]") s1
  evaluateAndUpdateDependencies tid s2

/-- The `WHERE` clause of the auto-tracking query: the most recent audit entry
recording a transition of this task into `in_progress`. -/
def matchesInProgressStart (tid : Nat) (e : LogEntry) : Bool :=
  decide (e.entityType = "task" ∧ e.entityId = tid ∧ e.action = "status_changed" ∧
    e.fieldName = some "status" ∧ e.newValue = some (LogVal.str "in_progress"))

/-- `ORDER BY created_at DESC LIMIT 1` over the matching entries; ties on the
timestamp are broken towards the later inserted row. -/
def latestInProgressEntry (db : DB) (tid : Nat) : Option LogEntry :=
  (db.log.filter (matchesInProgressStart tid)).foldl
    (fun acc e =>
      match acc with
      | none => some e
      | some b => if b.createdAt ≤ e.createdAt then some e else some b) none

/-- `Math.round(((nowMs - startMs) / 3_600_000) * 10) / 10`: elapsed
milliseconds to hours rounded to one decimal place.  `Math.round x` is
`⌊x + 1/2⌋`, so the number of tenths of an hour is
`⌊ms / 360000 + 1/2⌋ = (2 * ms + 360000).fdiv 720000`. -/
def roundHours (ms : ℤ) : ℚ :=
  Rat.divInt (Int.fdiv (2 * ms + 360000) 720000) 10

/-- JavaScript truthiness of a nullable numeric column: `null`, absent and `0`
are falsy. -/
def truthyQ (o : Option ℚ) : Bool :=
  match o with
  | none => false
  | some q => decide (q ≠ 0)

/-- The auto time tracking block shared by `handleTaskUpdate` and
`handleTaskBatchUpdate` (its guard is applied at the call sites). -/
def taskAutoTrack (tid : Nat) (title : String) (s : St) : St :=
  match latestInProgressEntry s.1 tid with
  | none => s
  | some e =>
    let hours := roundHours ((s.1.now : ℤ) - (e.createdAt : ℤ))
    if 0 < hours then
      logActivity "task" tid "updated" (some "actual_hours") none
        (some (LogVal.num hours))
        ("Task " ++ title ++ " auto-tracked: " ++ toString hours ++ "h")
        (commit (setActualHours tid hours) s)
    else s

/-- `args.status && oldRow.status !== args.status`. -/
def taskStatusChanged (a : UpdateArgs) (oldRow : Task) : Bool :=
  match a.status with
  | some st => decide (oldRow.status ≠ st)
  | none => false

/-- Result of a single-task update: the returned row or the thrown error, the
final state, and the list of individually committed states. -/
structure UpdRes where
  outcome : Except String Task
  db : DB
  trace : List DB

/-- Tail of `handleTaskUpdate` after the optional dependency block: auto time
tracking, then downstream reevaluation; `newRow2` is the refetched row. -/
def taskUpdateTail (a : UpdateArgs) (oldRow newRow2 : Task) (s5 : St) : UpdRes :=
  let sc := taskStatusChanged a oldRow
  let s7 := if sc = true ∧ a.status = some Status.done ∧
      truthyQ a.actualHours = false ∧ truthyQ newRow2.actualHours = false then
    taskAutoTrack a.id newRow2.title s5
  else s5
  let s8 := if sc = true ∧ a.status = some Status.done then
    reevaluateDownstream a.id s7
  else s7
  ⟨Except.ok ((findTask s8.1 a.id).getD newRow2), s8.1, s8.2⟩

/-- Tail of `handleTaskUpdate` after the column update: dependency block (with
re-fetch of the possibly changed row), auto time tracking, downstream
reevaluation. -/
def handleTaskUpdateRest (a : UpdateArgs) (oldRow newRow1 : Task) (s : St) : UpdRes :=
  let s5 := match a.dependsOn with
    | some l => taskDepBlock a.id l newRow1.title s
    | none => s
  taskUpdateTail a oldRow ((findTask s5.1 a.id).getD newRow1) s5

/-- `handleTaskUpdate` from `tasks.ts`.  Note that, unlike
`handleTaskBatchUpdate`, it is not wrapped in `db.transaction`, so every
statement it runs commits individually. -/
def handleTaskUpdate (db : DB) (a : UpdateArgs) : UpdRes :=
  match findTask db a.id with
  | none => ⟨Except.error ("Task " ++ toString a.id ++ " not found"), db, []⟩
  | some oldRow =>
    if hasTaskUpdateCols a then
      let newRow1 := taskColsRow a db.now oldRow
      let s2 := logEntityUpdate "task" a.id newRow1.title oldRow newRow1
        trackedTaskFields (commit (applyTaskColumns a) (db, []))
      handleTaskUpdateRest a oldRow newRow1 s2
    else if (a.dependsOn).isSome then
      handleTaskUpdateRest a oldRow oldRow (db, [])
    else ⟨Except.error "No fields to update", db, []⟩

/-- Arguments of the `task_batch_update` tool. -/
structure BatchArgs where
  ids : List Nat
  status : Option Status
  priority : Option Priority
  assignedTo : Option String
deriving DecidableEq

def batchColsRow (b : BatchArgs) (now : Nat) (t : Task) : Task :=
  { t with
    status := Option.getD b.status t.status,
    priority := Option.getD b.priority t.priority,
    assignedTo := updOpt b.assignedTo t.assignedTo,
    updatedAt := now }

def applyBatchColumns (b : BatchArgs) (tid : Nat) (db : DB) : DB :=
  { db with tasks := db.tasks.map (fun t =>
      if t.id = tid then batchColsRow b db.now t else t) }

/-- The body run for one id inside the `db.transaction` of
`handleTaskBatchUpdate`: update, change logs, auto tracking, downstream
reevaluation; a missing id throws. -/
def batchStep (b : BatchArgs) (db : DB) (tid : Nat) : Except String (DB × Task) :=
  match findTask db tid with
  | none => Except.error ("Task " ++ toString tid ++ " not found")
  | some oldRow =>
    let newRow1 := batchColsRow b db.now oldRow
    let s1 : St := (applyBatchColumns b tid db, [])
    let s2 := match b.status with
      | some st =>
        if oldRow.status = st then s1
        else logActivity "task" tid "status_changed" (some "status")
          (some (LogVal.str oldRow.status.str)) (some (LogVal.str st.str))
          ("Task " ++ newRow1.title ++ " status: " ++ oldRow.status.str ++ " -> " ++ st.str) s1
      | none => s1
    let s3 := match b.priority with
      | some p =>
        if oldRow.priority = p then s2
        else logActivity "task" tid "updated" (some "priority")
          (some (LogVal.str oldRow.priority.str)) (some (LogVal.str p.str))
          ("Task " ++ newRow1.title ++ " priority: " ++ oldRow.priority.str ++ " -> " ++ p.str) s2
      | none => s2
    let s4 := if b.status = some Status.done ∧ oldRow.status ≠ Status.done ∧
        truthyQ newRow1.actualHours = false then
      taskAutoTrack tid newRow1.title s3
    else s3
    let s5 := if b.status = some Status.done ∧ oldRow.status ≠ Status.done then
      reevaluateDownstream tid s4
    else s4
    Except.ok (s5.1, (findTask s5.1 tid).getD newRow1)

def batchBody (b : BatchArgs) (db : DB) : Except String (DB × List Task) :=
  List.foldlM (fun (acc : DB × List Task) tid =>
    (batchStep b acc.1 tid).map (fun r => (r.1, acc.2 ++ [r.2]))) (db, []) b.ids

/-- Result of a batch update: the returned rows or the thrown error, the final
state, and the committed states (at most one, because of the transaction). -/
structure BatchRes where
  outcome : Except String (List Task)
  db : DB
  trace : List DB

/-- `handleTaskBatchUpdate` from `activity.ts`: validation, then the whole
body inside one `db.transaction`, which commits once on success and rolls back
everything when the body throws. -/
def handleTaskBatchUpdate (db : DB) (b : BatchArgs) : BatchRes :=
  if (b.status).isNone ∧ (b.priority).isNone ∧ (b.assignedTo).isNone then
    ⟨Except.error "Provide at least one field to update: status, priority, or assigned_to", db, []⟩
  else
    match batchBody b db with
    | Except.ok (d, ts) => ⟨Except.ok ts, d, [d]⟩
    | Except.error m => ⟨Except.error m, db, []⟩

/-- The blocking invariant of the spec for one task: whenever the task exists
and has at least one declared predecessor edge, it is `blocked` exactly when
an unmet (existing, not `done`) predecessor remains, unless the task itself is
`done`. -/
def depInvariantAt (db : DB) (tid : Nat) : Prop :=
  (findTask db tid).isSome = true → predEdges db tid ≠ [] →
    ((0 < unmetCount db tid → statusOf db tid ≠ some Status.done →
        statusOf db tid = some Status.blocked)
     ∧ (unmetCount db tid = 0 → statusOf db tid ≠ some Status.blocked))

instance (db : DB) (tid : Nat) : Decidable (depInvariantAt db tid) := by
  unfold depInvariantAt
  infer_instance


/-- A task fixture used by concrete witnesses: id, status, everything else
defaulted. -/
def mkTask (i : Nat) (st : Status) : Task :=
  ⟨i, 1, "T", none, st, Priority.medium, 0, none, none, none, none, none, "[]", 0⟩

/-- An argument fixture used by concrete witnesses: id only. -/
def mkArgs (i : Nat) : UpdateArgs :=
  ⟨i, none, none, none, none, none, none, none, none, none, none, none, none⟩

def dbChain : DB :=
  { tasks := [mkTask 1 Status.inProgress, mkTask 2 Status.blocked, mkTask 3 Status.blocked],
    deps := [(2, 1), (3, 2)], log := [], now := 0 }


/-! ### Basic observation lemmas -/

/-- Whether the task `p` currently exists and is not `done`: the condition for
an edge onto `p` to count as unmet. -/
def unmetAt (db : DB) (p : Nat) : Bool :=
  match statusOf db p with
  | some st => decide (st ≠ Status.done)
  | none => false

/-- The fold that `reevaluateDownstream` performs over the successor list. -/
def foldEval (l : List Nat) (s : St) : St :=
  l.foldl (fun s x => evaluateAndUpdateDependencies x s) s

/-- The per-id insert loop of `setDependencies`. -/
def foldIns (tid : Nat) (l : List Nat) (s : St) : St :=
  l.foldl (fun s d => if d = tid then s else commit (insertDepEdge tid d) s) s

/-- The audit entries recording an auto-tracked effort for a given task. -/
def ahBool (tid : Nat) (e : LogEntry) : Bool :=
  decide (e.entityId = tid ∧ e.fieldName = some "actual_hours")

/-- The left fold that `batchBody` performs over the requested ids, with an
explicit accumulator. -/
def batchFold (b : BatchArgs) (acc : DB × List Task) (ids : List Nat) :
    Except String (DB × List Task) :=
  List.foldlM (fun (acc : DB × List Task) tid =>
    (batchStep b acc.1 tid).map (fun r => (r.1, acc.2 ++ [r.2]))) acc ids

def startEntry1 : LogEntry :=
  ⟨"task", 1, "status_changed", some "status", some (LogVal.str "todo"), some (LogVal.str "in_progress"), "s", 0⟩
def dbAuto : DB :=
  { tasks := [{ mkTask 1 Status.inProgress with actualHours := some 5 }],
    deps := [], log := [startEntry1], now := 9000000 }
def dbAuto0 : DB :=
  { tasks := [mkTask 1 Status.inProgress], deps := [], log := [startEntry1], now := 9000000 }
def dbC3 : DB :=
  { tasks := [mkTask 1 Status.todo, mkTask 2 Status.todo], deps := [], log := [], now := 0 }
def dbCE : DB :=
  { tasks := [mkTask 1 Status.todo, mkTask 2 Status.done], deps := [(1, 2)], log := [], now := 0 }

theorem length_filterMap_eq_length_filter {α β : Type} (l : List α) (f : α → Option β) :
    (l.filterMap f).length = (l.filter (fun a => (f a).isSome)).length := by
  induction l with
  | nil => rfl
  | cons a l ih =>
    simp only [List.filterMap_cons, List.filter_cons]
    cases h : f a <;> simp [h, ih]

theorem unmetCount_eq_filter (db : DB) (tid : Nat) :
    unmetCount db tid = ((predEdges db tid).filter (fun p => unmetAt db p)).length := by
  unfold unmetCount unmetDeps
  rw [length_filterMap_eq_length_filter]
  congr 1
  apply List.filter_congr
  intro p _
  unfold unmetAt statusOf
  cases h : findTask db p with
  | none => simp [h]
  | some t =>
    by_cases hd : t.status = Status.done <;> simp [h, hd]

theorem unmetCount_congr {d1 d2 : DB} (tid : Nat)
    (hdeps : d2.deps = d1.deps) (hun : ∀ p, unmetAt d2 p = unmetAt d1 p) :
    unmetCount d2 tid = unmetCount d1 tid := by
  rw [unmetCount_eq_filter, unmetCount_eq_filter]
  have hpe : predEdges d2 tid = predEdges d1 tid := by
    unfold predEdges; rw [hdeps]
  rw [hpe]
  congr 1
  apply List.filter_congr
  intro p _
  exact hun p

theorem find?_map_of_id (l : List Task) (g : Task → Task)
    (hg : ∀ t, (g t).id = t.id) (tid : Nat) :
    (l.map g).find? (fun t => t.id == tid) = (l.find? (fun t => t.id == tid)).map g := by
  induction l with
  | nil => rfl
  | cons a l ih =>
    rw [List.map_cons]
    simp only [List.find?, hg]
    cases hpa : (a.id == tid) <;> simp [hpa, ih]

theorem findTask_mem_id {db : DB} {tid : Nat} {t : Task}
    (h : findTask db tid = some t) : t.id = tid := by
  have := List.find?_some h
  simpa using this

/-! ### Frame lemmas for the primitive statements -/

theorem appendLog_tasks (e : LogEntry) (db : DB) : (appendLog e db).tasks = db.tasks := rfl

theorem appendLog_deps (e : LogEntry) (db : DB) : (appendLog e db).deps = db.deps := rfl

theorem appendLog_now (e : LogEntry) (db : DB) : (appendLog e db).now = db.now := rfl

theorem findTask_appendLog (e : LogEntry) (db : DB) (x : Nat) :
    findTask (appendLog e db) x = findTask db x := rfl

theorem setStatusNow_deps (tid : Nat) (st : Status) (db : DB) :
    (setStatusNow tid st db).deps = db.deps := rfl

theorem setStatusNow_log (tid : Nat) (st : Status) (db : DB) :
    (setStatusNow tid st db).log = db.log := rfl

theorem setStatusNow_now (tid : Nat) (st : Status) (db : DB) :
    (setStatusNow tid st db).now = db.now := rfl

theorem findTask_setStatusNow (tid : Nat) (st : Status) (db : DB) (x : Nat) :
    findTask (setStatusNow tid st db) x =
      (findTask db x).map (fun t =>
        if t.id = tid then { t with status := st, updatedAt := db.now } else t) := by
  unfold findTask setStatusNow
  exact find?_map_of_id _ _ (by intro t; split <;> rfl) x

theorem findTask_setStatusNow_other {tid x : Nat} (st : Status) (db : DB) (hx : x ≠ tid) :
    findTask (setStatusNow tid st db) x = findTask db x := by
  rw [findTask_setStatusNow]
  cases h : findTask db x with
  | none => rfl
  | some t =>
    have hid := findTask_mem_id h
    simp [hid, hx]

theorem statusOf_setStatusNow_self {tid : Nat} (st : Status) (db : DB)
    (h : (findTask db tid).isSome = true) :
    statusOf (setStatusNow tid st db) tid = some st := by
  unfold statusOf
  rw [findTask_setStatusNow]
  cases hf : findTask db tid with
  | none => rw [hf] at h; simp at h
  | some t =>
    have hid := findTask_mem_id hf
    simp [hid]

theorem setActualHours_deps (tid : Nat) (h : ℚ) (db : DB) :
    (setActualHours tid h db).deps = db.deps := rfl

theorem setActualHours_log (tid : Nat) (h : ℚ) (db : DB) :
    (setActualHours tid h db).log = db.log := rfl

theorem setActualHours_now (tid : Nat) (h : ℚ) (db : DB) :
    (setActualHours tid h db).now = db.now := rfl

theorem findTask_setActualHours (tid : Nat) (q : ℚ) (db : DB) (x : Nat) :
    findTask (setActualHours tid q db) x =
      (findTask db x).map (fun t =>
        if t.id = tid then { t with actualHours := some q } else t) := by
  unfold findTask setActualHours
  exact find?_map_of_id _ _ (by intro t; split <;> rfl) x

theorem statusOf_setActualHours (tid : Nat) (q : ℚ) (db : DB) (x : Nat) :
    statusOf (setActualHours tid q db) x = statusOf db x := by
  unfold statusOf
  rw [findTask_setActualHours]
  cases h : findTask db x with
  | none => rfl
  | some t => by_cases hid : t.id = tid <;> simp [hid]

/-! ### Lemmas about `evaluateAndUpdateDependencies` -/

theorem commit_fst (f : DB → DB) (s : St) : (commit f s).1 = f s.1 := rfl

theorem logActivity_fst (et : String) (ei : Nat) (ac : String) (fn : Option String)
    (ov nv : Option LogVal) (su : String) (s : St) :
    (logActivity et ei ac fn ov nv su s).1 =
      appendLog ⟨et, ei, ac, fn, ov, nv, su, s.1.now⟩ s.1 := rfl

theorem eval_missing {tid : Nat} {s : St} (h : findTask s.1 tid = none) :
    evaluateAndUpdateDependencies tid s = s := by
  unfold evaluateAndUpdateDependencies
  simp [h]

theorem eval_no_preds {tid : Nat} {s : St} (h : predEdges s.1 tid = []) :
    evaluateAndUpdateDependencies tid s = s := by
  unfold evaluateAndUpdateDependencies
  cases hf : findTask s.1 tid <;> simp [h]

theorem eval_done_noop {tid : Nat} {s : St} {t : Task}
    (h : findTask s.1 tid = some t) (hd : t.status = Status.done) :
    evaluateAndUpdateDependencies tid s = s := by
  unfold evaluateAndUpdateDependencies
  simp [h, hd]

theorem eval_deps (tid : Nat) (s : St) :
    (evaluateAndUpdateDependencies tid s).1.deps = s.1.deps := by
  unfold evaluateAndUpdateDependencies
  cases hf : findTask s.1 tid with
  | none => rfl
  | some t => dsimp only; split_ifs <;> rfl

theorem eval_now (tid : Nat) (s : St) :
    (evaluateAndUpdateDependencies tid s).1.now = s.1.now := by
  unfold evaluateAndUpdateDependencies
  cases hf : findTask s.1 tid with
  | none => rfl
  | some t => dsimp only; split_ifs <;> rfl

theorem eval_predEdges (tid x : Nat) (s : St) :
    predEdges (evaluateAndUpdateDependencies tid s).1 x = predEdges s.1 x := by
  unfold predEdges
  rw [eval_deps]

theorem eval_successorIds (tid x : Nat) (s : St) :
    successorIds (evaluateAndUpdateDependencies tid s).1 x = successorIds s.1 x := by
  unfold successorIds
  rw [eval_deps]

theorem findTask_eval_other {tid x : Nat} (s : St) (hx : x ≠ tid) :
    findTask (evaluateAndUpdateDependencies tid s).1 x = findTask s.1 x := by
  unfold evaluateAndUpdateDependencies
  cases hf : findTask s.1 tid with
  | none => rfl
  | some t =>
    dsimp only
    split_ifs <;>
      simp only [logActivity_fst, findTask_appendLog, commit_fst,
        findTask_setStatusNow_other _ _ hx]

theorem statusOf_eval_other {tid x : Nat} (s : St) (hx : x ≠ tid) :
    statusOf (evaluateAndUpdateDependencies tid s).1 x = statusOf s.1 x := by
  unfold statusOf
  rw [findTask_eval_other s hx]

theorem statusOf_eval_self {tid : Nat} {s : St} {t : Task}
    (h : findTask s.1 tid = some t) :
    statusOf (evaluateAndUpdateDependencies tid s).1 tid =
      some (if predEdges s.1 tid = [] then t.status
        else if 0 < unmetCount s.1 tid ∧ t.status ≠ Status.blocked ∧ t.status ≠ Status.done
          then Status.blocked
        else if unmetCount s.1 tid = 0 ∧ t.status = Status.blocked then Status.todo
        else t.status) := by
  have hsome : (findTask s.1 tid).isSome = true := by rw [h]; rfl
  unfold evaluateAndUpdateDependencies
  simp only [h, unmetCount, unmetDeps]
  split_ifs with h1 h2 h3
  · unfold statusOf; rw [h]; rfl
  · simp only [logActivity_fst, commit_fst]
    unfold statusOf
    rw [findTask_appendLog, findTask_setStatusNow]
    cases hf : findTask s.1 tid with
    | none => rw [hf] at h; cases h
    | some u =>
      have hid := findTask_mem_id hf
      simp [hid]
  · simp only [logActivity_fst, commit_fst]
    unfold statusOf
    rw [findTask_appendLog, findTask_setStatusNow]
    cases hf : findTask s.1 tid with
    | none => rw [hf] at h; cases h
    | some u =>
      have hid := findTask_mem_id hf
      simp [hid]
  · unfold statusOf; rw [h]; rfl

theorem isSome_eval (tid x : Nat) (s : St) :
    (findTask (evaluateAndUpdateDependencies tid s).1 x).isSome =
      (findTask s.1 x).isSome := by
  by_cases hx : x = tid
  · subst hx
    cases hf : findTask s.1 x with
    | none => rw [eval_missing hf, hf]
    | some t =>
      have : statusOf (evaluateAndUpdateDependencies x s).1 x = some _ :=
        statusOf_eval_self hf
      unfold statusOf at this
      cases hpost : findTask (evaluateAndUpdateDependencies x s).1 x with
      | none => rw [hpost] at this; cases this
      | some u => rfl
  · rw [findTask_eval_other s hx]

theorem unmetAt_eval (tid p : Nat) (s : St) :
    unmetAt (evaluateAndUpdateDependencies tid s).1 p = unmetAt s.1 p := by
  unfold unmetAt
  by_cases hp : p = tid
  · subst hp
    cases hf : findTask s.1 p with
    | none => rw [eval_missing hf]
    | some t =>
      rw [statusOf_eval_self hf]
      have hs : statusOf s.1 p = some t.status := by unfold statusOf; rw [hf]; rfl
      rw [hs]
      split_ifs with h1 h2 h3
      · rfl
      · rcases h2 with ⟨-, -, hnd⟩
        simp [hnd]
      · rcases h3 with ⟨-, hb⟩
        simp [hb]
      · rfl
  · rw [statusOf_eval_other s hp]

theorem unmetCount_eval (tid y : Nat) (s : St) :
    unmetCount (evaluateAndUpdateDependencies tid s).1 y = unmetCount s.1 y :=
  unmetCount_congr y (eval_deps tid s) (fun p => unmetAt_eval tid p s)

theorem actualHoursOf_eval (tid x : Nat) (s : St) :
    actualHoursOf (evaluateAndUpdateDependencies tid s).1 x = actualHoursOf s.1 x := by
  unfold evaluateAndUpdateDependencies
  cases hf : findTask s.1 tid with
  | none => rfl
  | some t =>
    dsimp only
    split_ifs <;>
      [skip;
       (simp only [logActivity_fst, commit_fst]; unfold actualHoursOf;
        rw [findTask_appendLog, findTask_setStatusNow];
        cases hx : findTask s.1 x with
        | none => rfl
        | some u => by_cases hid : u.id = tid <;> simp [hid]);
       (simp only [logActivity_fst, commit_fst]; unfold actualHoursOf;
        rw [findTask_appendLog, findTask_setStatusNow];
        cases hx : findTask s.1 x with
        | none => rfl
        | some u => by_cases hid : u.id = tid <;> simp [hid]);
       skip] <;> rfl

theorem eval_log_shape (tid : Nat) (s : St) :
    ∃ es, (evaluateAndUpdateDependencies tid s).1.log = s.1.log ++ es ∧
      ∀ e ∈ es, e.fieldName = some "status" ∧ e.action = "status_changed" ∧
        e.entityId = tid := by
  unfold evaluateAndUpdateDependencies
  cases hf : findTask s.1 tid with
  | none => exact ⟨[], by simp⟩
  | some t =>
    dsimp only
    split_ifs
    · exact ⟨[], by simp⟩
    · refine ⟨_, rfl, ?_⟩
      intro e he
      rw [List.mem_singleton] at he
      subst he
      exact ⟨rfl, rfl, rfl⟩
    · refine ⟨_, rfl, ?_⟩
      intro e he
      rw [List.mem_singleton] at he
      subst he
      exact ⟨rfl, rfl, rfl⟩
    · exact ⟨[], by simp⟩

/-! ### The blocking invariant under reevaluation -/

theorem eval_establishes_inv (tid : Nat) (s : St) :
    depInvariantAt (evaluateAndUpdateDependencies tid s).1 tid := by
  intro hsome hpred
  rw [isSome_eval] at hsome
  rw [eval_predEdges] at hpred
  cases hf : findTask s.1 tid with
  | none => rw [hf] at hsome; cases hsome
  | some t =>
    have hst := statusOf_eval_self hf
    rw [if_neg hpred] at hst
    rw [unmetCount_eval, hst]
    split_ifs with h1 h2
    · exact ⟨fun _ _ => rfl, fun hu0 => absurd h1.1 (by omega)⟩
    · exact ⟨fun hu _ => absurd h2.1 (by omega), fun _ => by simp⟩
    · constructor
      · intro hu hnd
        by_cases hcb : t.status = Status.blocked
        · rw [hcb]
        · have hcd : t.status = Status.done := by tauto
          exact absurd (by rw [hcd]) hnd
      · intro hu0
        have hcb : t.status ≠ Status.blocked := by tauto
        simp [hcb]

theorem eval_preserves_inv (tid T : Nat) (s : St)
    (hinv : depInvariantAt s.1 T) :
    depInvariantAt (evaluateAndUpdateDependencies tid s).1 T := by
  by_cases hT : T = tid
  · subst hT; exact eval_establishes_inv _ s
  · intro hsome hpred
    rw [isSome_eval] at hsome
    rw [eval_predEdges] at hpred
    rw [unmetCount_eval, statusOf_eval_other s hT]
    exact hinv hsome hpred

theorem reevaluateDownstream_eq (tid : Nat) (s : St) :
    reevaluateDownstream tid s = foldEval (successorIds s.1 tid) s := rfl

theorem foldEval_nil (s : St) : foldEval [] s = s := rfl

theorem foldEval_cons (x : Nat) (l : List Nat) (s : St) :
    foldEval (x :: l) s = foldEval l (evaluateAndUpdateDependencies x s) := rfl

theorem foldEval_deps (l : List Nat) (s : St) :
    (foldEval l s).1.deps = s.1.deps := by
  induction l generalizing s with
  | nil => rfl
  | cons x l ih => rw [foldEval_cons, ih, eval_deps]

theorem foldEval_now (l : List Nat) (s : St) :
    (foldEval l s).1.now = s.1.now := by
  induction l generalizing s with
  | nil => rfl
  | cons x l ih => rw [foldEval_cons, ih, eval_now]

theorem findTask_foldEval_not_mem {l : List Nat} {x : Nat} (s : St) (hx : x ∉ l) :
    findTask (foldEval l s).1 x = findTask s.1 x := by
  induction l generalizing s with
  | nil => rfl
  | cons y l ih =>
    rw [foldEval_cons, ih _ (fun h => hx (List.mem_cons_of_mem y h)),
      findTask_eval_other s (fun h => hx (by rw [h]; exact List.mem_cons_self y l))]

theorem unmetAt_foldEval (l : List Nat) (p : Nat) (s : St) :
    unmetAt (foldEval l s).1 p = unmetAt s.1 p := by
  induction l generalizing s with
  | nil => rfl
  | cons x l ih => rw [foldEval_cons, ih, unmetAt_eval]

theorem unmetCount_foldEval (l : List Nat) (y : Nat) (s : St) :
    unmetCount (foldEval l s).1 y = unmetCount s.1 y :=
  unmetCount_congr y (foldEval_deps l s) (fun p => unmetAt_foldEval l p s)

theorem isSome_foldEval (l : List Nat) (x : Nat) (s : St) :
    (findTask (foldEval l s).1 x).isSome = (findTask s.1 x).isSome := by
  induction l generalizing s with
  | nil => rfl
  | cons y l ih => rw [foldEval_cons, ih, isSome_eval]

theorem actualHoursOf_foldEval (l : List Nat) (x : Nat) (s : St) :
    actualHoursOf (foldEval l s).1 x = actualHoursOf s.1 x := by
  induction l generalizing s with
  | nil => rfl
  | cons y l ih => rw [foldEval_cons, ih, actualHoursOf_eval]

theorem foldEval_preserves_inv (l : List Nat) (T : Nat) (s : St)
    (hinv : depInvariantAt s.1 T) :
    depInvariantAt (foldEval l s).1 T := by
  induction l generalizing s with
  | nil => exact hinv
  | cons x l ih => rw [foldEval_cons]; exact ih _ (eval_preserves_inv x T s hinv)

theorem foldEval_establishes_inv {l : List Nat} {T : Nat} (s : St) (hT : T ∈ l) :
    depInvariantAt (foldEval l s).1 T := by
  induction l generalizing s with
  | nil => cases hT
  | cons x l ih =>
    rw [foldEval_cons]
    rcases List.mem_cons.mp hT with h | h
    · subst h; exact foldEval_preserves_inv l T _ (eval_establishes_inv T s)
    · exact ih _ h

theorem foldEval_log_shape (l : List Nat) (s : St) :
    ∃ es, (foldEval l s).1.log = s.1.log ++ es ∧
      ∀ e ∈ es, e.fieldName = some "status" ∧ e.action = "status_changed" := by
  induction l generalizing s with
  | nil => exact ⟨[], by simp [foldEval_nil]⟩
  | cons x l ih =>
    rw [foldEval_cons]
    obtain ⟨es1, he1, hp1⟩ := eval_log_shape x s
    obtain ⟨es2, he2, hp2⟩ := ih (evaluateAndUpdateDependencies x s)
    refine ⟨es1 ++ es2, ?_, ?_⟩
    · rw [he2, he1, List.append_assoc]
    · intro e he
      rcases List.mem_append.mp he with h | h
      · exact ⟨(hp1 e h).1, (hp1 e h).2.1⟩
      · exact hp2 e h

theorem statusOf_foldEval_todo {l : List Nat} {b : Nat} (s : St)
    (hu : unmetCount s.1 b = 0) (hp : predEdges s.1 b ≠ [])
    (hst : statusOf s.1 b = some Status.blocked ∨ statusOf s.1 b = some Status.todo)
    (hin : b ∈ l ∨ statusOf s.1 b = some Status.todo) :
    statusOf (foldEval l s).1 b = some Status.todo := by
  induction l generalizing s with
  | nil =>
    rcases hin with h | h
    · cases h
    · exact h
  | cons x l ih =>
    rw [foldEval_cons]
    by_cases hx : x = b
    · subst hx
      cases hf : findTask s.1 x with
      | none => unfold statusOf at hst; rw [hf] at hst; rcases hst with h | h <;> cases h
      | some t =>
        have hts : statusOf s.1 x = some t.status := by unfold statusOf; rw [hf]; rfl
        have hst2 := statusOf_eval_self hf
        rw [if_neg hp, if_neg (by rw [hu]; omega)] at hst2
        have htodo : statusOf (evaluateAndUpdateDependencies x s).1 x = some Status.todo := by
          rcases hst with h | h
          · have hb : t.status = Status.blocked := by
              rw [hts] at h; exact Option.some.inj h
            rw [hst2, if_pos ⟨hu, hb⟩]
          · have hb : t.status = Status.todo := by
              rw [hts] at h; exact Option.some.inj h
            rw [hst2]
            split_ifs with hc
            · rfl
            · rw [hb]
        exact ih (evaluateAndUpdateDependencies x s)
          (by rw [unmetCount_eval]; exact hu)
          (by rw [eval_predEdges]; exact hp)
          (Or.inr htodo) (Or.inr htodo)
    · have hx2 : b ≠ x := fun h => hx h.symm
      refine ih (evaluateAndUpdateDependencies x s)
        (by rw [unmetCount_eval]; exact hu)
        (by rw [eval_predEdges]; exact hp)
        (by rw [statusOf_eval_other s hx2]; exact hst) ?_
      rcases hin with h | h
      · rcases List.mem_cons.mp h with h2 | h2
        · exact absurd h2.symm hx
        · exact Or.inl h2
      · exact Or.inr (by rw [statusOf_eval_other s hx2]; exact h)

/-! ### Transport of the invariant along status-preserving steps -/

theorem isSome_findTask_statusOf (d : DB) (x : Nat) :
    (findTask d x).isSome = (statusOf d x).isSome := by
  unfold statusOf
  cases findTask d x <;> rfl

theorem unmetAt_congr {d1 d2 : DB} (p : Nat)
    (hst : statusOf d2 p = statusOf d1 p) : unmetAt d2 p = unmetAt d1 p := by
  unfold unmetAt
  rw [hst]

theorem depInvariant_transport {d1 d2 : DB} (T : Nat)
    (hst : ∀ x, statusOf d2 x = statusOf d1 x) (hdeps : d2.deps = d1.deps)
    (hinv : depInvariantAt d1 T) : depInvariantAt d2 T := by
  intro hsome hpred
  have hpe : predEdges d2 T = predEdges d1 T := by unfold predEdges; rw [hdeps]
  have hu : unmetCount d2 T = unmetCount d1 T :=
    unmetCount_congr T hdeps (fun p => unmetAt_congr p (hst p))
  rw [hu, hst]
  rw [isSome_findTask_statusOf, hst T, ← isSome_findTask_statusOf] at hsome
  rw [hpe] at hpred
  exact hinv hsome hpred

/-! ### Lemmas about `setDependencies` -/

theorem insertDepEdge_tasks (tid did : Nat) (db : DB) :
    (insertDepEdge tid did db).tasks = db.tasks := by
  unfold insertDepEdge; split <;> rfl

theorem insertDepEdge_log (tid did : Nat) (db : DB) :
    (insertDepEdge tid did db).log = db.log := by
  unfold insertDepEdge; split <;> rfl

theorem insertDepEdge_now (tid did : Nat) (db : DB) :
    (insertDepEdge tid did db).now = db.now := by
  unfold insertDepEdge; split <;> rfl

theorem setDependencies_eq (tid : Nat) (l : List Nat) (s : St) :
    setDependencies tid l s =
      foldIns tid l
        (commit (fun db => { db with deps := db.deps.filter (fun e => e.1 != tid) }) s) := rfl

theorem foldIns_nil (tid : Nat) (s : St) : foldIns tid [] s = s := rfl

theorem foldIns_cons (tid d : Nat) (l : List Nat) (s : St) :
    foldIns tid (d :: l) s =
      foldIns tid l (if d = tid then s else commit (insertDepEdge tid d) s) := rfl

theorem foldIns_tasks (tid : Nat) (l : List Nat) (s : St) :
    (foldIns tid l s).1.tasks = s.1.tasks := by
  induction l generalizing s with
  | nil => rfl
  | cons d l ih =>
    rw [foldIns_cons, ih]
    split
    · rfl
    · rw [commit_fst, insertDepEdge_tasks]

theorem foldIns_log (tid : Nat) (l : List Nat) (s : St) :
    (foldIns tid l s).1.log = s.1.log := by
  induction l generalizing s with
  | nil => rfl
  | cons d l ih =>
    rw [foldIns_cons, ih]
    split
    · rfl
    · rw [commit_fst, insertDepEdge_log]

theorem foldIns_now (tid : Nat) (l : List Nat) (s : St) :
    (foldIns tid l s).1.now = s.1.now := by
  induction l generalizing s with
  | nil => rfl
  | cons d l ih =>
    rw [foldIns_cons, ih]
    split
    · rfl
    · rw [commit_fst, insertDepEdge_now]

theorem foldIns_deps_shape (tid : Nat) (l : List Nat) (s : St) :
    ∃ added, (∀ e ∈ added, e.1 = tid) ∧
      (foldIns tid l s).1.deps = s.1.deps ++ added := by
  induction l generalizing s with
  | nil => exact ⟨[], by simp, by simp [foldIns_nil]⟩
  | cons d l ih =>
    rw [foldIns_cons]
    by_cases hd : d = tid
    · rw [if_pos hd]; exact ih s
    · rw [if_neg hd]
      obtain ⟨added, hall, heq⟩ := ih (commit (insertDepEdge tid d) s)
      rw [commit_fst] at heq
      unfold insertDepEdge at heq
      by_cases hm : (tid, d) ∈ s.1.deps
      · rw [if_pos hm] at heq
        exact ⟨added, hall, heq⟩
      · rw [if_neg hm] at heq
        refine ⟨(tid, d) :: added, ?_, ?_⟩
        · intro e he
          rcases List.mem_cons.mp he with h | h
          · rw [h]
          · exact hall e h
        · simpa using heq

theorem setDependencies_tasks (tid : Nat) (l : List Nat) (s : St) :
    (setDependencies tid l s).1.tasks = s.1.tasks := by
  rw [setDependencies_eq, foldIns_tasks]; rfl

theorem setDependencies_log (tid : Nat) (l : List Nat) (s : St) :
    (setDependencies tid l s).1.log = s.1.log := by
  rw [setDependencies_eq, foldIns_log]; rfl

theorem setDependencies_now (tid : Nat) (l : List Nat) (s : St) :
    (setDependencies tid l s).1.now = s.1.now := by
  rw [setDependencies_eq, foldIns_now]; rfl

theorem findTask_setDependencies (tid : Nat) (l : List Nat) (s : St) (x : Nat) :
    findTask (setDependencies tid l s).1 x = findTask s.1 x := by
  unfold findTask
  rw [setDependencies_tasks]

theorem statusOf_setDependencies (tid : Nat) (l : List Nat) (s : St) (x : Nat) :
    statusOf (setDependencies tid l s).1 x = statusOf s.1 x := by
  unfold statusOf
  rw [findTask_setDependencies]

theorem setDependencies_deps_shape (tid : Nat) (l : List Nat) (s : St) :
    ∃ added, (∀ e ∈ added, e.1 = tid) ∧
      (setDependencies tid l s).1.deps =
        s.1.deps.filter (fun e => e.1 != tid) ++ added := by
  rw [setDependencies_eq]
  exact foldIns_deps_shape tid l _

theorem predEdges_setDependencies_other {tid y : Nat} (l : List Nat) (s : St)
    (hy : y ≠ tid) :
    predEdges (setDependencies tid l s).1 y = predEdges s.1 y := by
  obtain ⟨added, hall, heq⟩ := setDependencies_deps_shape tid l s
  unfold predEdges
  rw [heq, List.filter_append]
  have h1 : added.filter (fun e => e.1 == y) = [] := by
    rw [List.filter_eq_nil_iff]
    intro e he
    have h1 := hall e he
    simp only [h1, beq_iff_eq]
    exact fun hh => hy hh.symm
  have h2 : (s.1.deps.filter (fun e => e.1 != tid)).filter (fun e => e.1 == y) =
      s.1.deps.filter (fun e => e.1 == y) := by
    rw [List.filter_filter]
    apply List.filter_congr
    intro e _
    by_cases he : e.1 = y
    · simp [he, hy]
    · simp [he]
  rw [h1, h2, List.append_nil]

theorem mem_setDependencies_of_mem {tid : Nat} {p : Nat × Nat} (l : List Nat) (s : St)
    (hp : p ∈ s.1.deps) (hne : p.1 ≠ tid) :
    p ∈ (setDependencies tid l s).1.deps := by
  obtain ⟨added, hall, heq⟩ := setDependencies_deps_shape tid l s
  rw [heq]
  exact List.mem_append_left _ (List.mem_filter.mpr ⟨hp, by simpa using hne⟩)

theorem mem_successorIds {db : DB} {x q : Nat} (h : (x, q) ∈ db.deps) :
    x ∈ successorIds db q := by
  unfold successorIds
  exact List.mem_map.mpr ⟨(x, q), List.mem_filter.mpr ⟨h, by simp⟩, rfl⟩

/-! ### Lemmas about `logEntityUpdate`, the column update and auto tracking -/

theorem logEntityUpdate_nil (et : String) (ei : Nat) (en : String) (o n : Task) (s : St) :
    logEntityUpdate et ei en o n [] s = s := rfl

theorem logEntityUpdate_cons (et : String) (ei : Nat) (en : String) (o n : Task)
    (f : String) (rest : List String) (s : St) :
    logEntityUpdate et ei en o n (f :: rest) s =
      logEntityUpdate et ei en o n rest
        (if taskFieldStr f o = taskFieldStr f n then s
         else logActivity et ei (if f = "status" then "status_changed" else "updated")
           (some f) (some (LogVal.str (taskFieldStr f o))) (some (LogVal.str (taskFieldStr f n)))
           (et ++ " " ++ en ++ " " ++ f ++ ": " ++ taskFieldStr f o ++ " -> " ++ taskFieldStr f n)
           s) := rfl

theorem logEntityUpdate_tasks (et : String) (ei : Nat) (en : String) (o n : Task)
    (tracked : List String) (s : St) :
    (logEntityUpdate et ei en o n tracked s).1.tasks = s.1.tasks := by
  induction tracked generalizing s with
  | nil => rfl
  | cons f rest ih =>
    rw [logEntityUpdate_cons, ih]
    split <;> rfl

theorem logEntityUpdate_deps (et : String) (ei : Nat) (en : String) (o n : Task)
    (tracked : List String) (s : St) :
    (logEntityUpdate et ei en o n tracked s).1.deps = s.1.deps := by
  induction tracked generalizing s with
  | nil => rfl
  | cons f rest ih =>
    rw [logEntityUpdate_cons, ih]
    split <;> rfl

theorem logEntityUpdate_now (et : String) (ei : Nat) (en : String) (o n : Task)
    (tracked : List String) (s : St) :
    (logEntityUpdate et ei en o n tracked s).1.now = s.1.now := by
  induction tracked generalizing s with
  | nil => rfl
  | cons f rest ih =>
    rw [logEntityUpdate_cons, ih]
    split <;> rfl

theorem findTask_logEntityUpdate (et : String) (ei : Nat) (en : String) (o n : Task)
    (tracked : List String) (s : St) (x : Nat) :
    findTask (logEntityUpdate et ei en o n tracked s).1 x = findTask s.1 x := by
  unfold findTask
  rw [logEntityUpdate_tasks]

theorem logEntityUpdate_no_change (et : String) (ei : Nat) (en : String) (o n : Task)
    (tracked : List String) (s : St)
    (h : ∀ f ∈ tracked, taskFieldStr f o = taskFieldStr f n) :
    logEntityUpdate et ei en o n tracked s = s := by
  induction tracked generalizing s with
  | nil => rfl
  | cons f rest ih =>
    rw [logEntityUpdate_cons, if_pos (h f (List.mem_cons_self f rest))]
    exact ih _ (fun g hg => h g (List.mem_cons_of_mem f hg))

theorem logEntityUpdate_log_shape (et : String) (ei : Nat) (en : String) (o n : Task)
    (tracked : List String) (s : St) :
    ∃ es, (logEntityUpdate et ei en o n tracked s).1.log = s.1.log ++ es ∧
      ∀ e ∈ es, ∃ f ∈ tracked, e.fieldName = some f ∧
        e.action = (if f = "status" then "status_changed" else "updated") ∧
        e.newValue = some (LogVal.str (taskFieldStr f n)) := by
  induction tracked generalizing s with
  | nil => exact ⟨[], by simp [logEntityUpdate_nil]⟩
  | cons f rest ih =>
    rw [logEntityUpdate_cons]
    split
    · obtain ⟨es, he, hp⟩ := ih s
      refine ⟨es, he, fun e hm => ?_⟩
      obtain ⟨g, hg, hprop⟩ := hp e hm
      exact ⟨g, List.mem_cons_of_mem f hg, hprop⟩
    · obtain ⟨es, he, hp⟩ := ih (logActivity et ei
        (if f = "status" then "status_changed" else "updated")
        (some f) (some (LogVal.str (taskFieldStr f o))) (some (LogVal.str (taskFieldStr f n)))
        (et ++ " " ++ en ++ " " ++ f ++ ": " ++ taskFieldStr f o ++ " -> " ++ taskFieldStr f n) s)
      rw [logActivity_fst] at he
      refine ⟨({
          entityType := et, entityId := ei,
          action := if f = "status" then "status_changed" else "updated",
          fieldName := some f, oldValue := some (LogVal.str (taskFieldStr f o)),
          newValue := some (LogVal.str (taskFieldStr f n)),
          summary := et ++ " " ++ en ++ " " ++ f ++ ": " ++ taskFieldStr f o ++ " -> " ++
            taskFieldStr f n,
          createdAt := s.1.now } : LogEntry) :: es, ?_, ?_⟩
      · rw [he]
        simp [appendLog]
      · intro e hm
        rcases List.mem_cons.mp hm with h1 | h1
        · subst h1
          exact ⟨f, List.mem_cons_self f rest, rfl, rfl, rfl⟩
        · obtain ⟨g, hg, hprop⟩ := hp e h1
          exact ⟨g, List.mem_cons_of_mem f hg, hprop⟩

theorem applyTaskColumns_deps (a : UpdateArgs) (db : DB) :
    (applyTaskColumns a db).deps = db.deps := rfl

theorem applyTaskColumns_log (a : UpdateArgs) (db : DB) :
    (applyTaskColumns a db).log = db.log := rfl

theorem applyTaskColumns_now (a : UpdateArgs) (db : DB) :
    (applyTaskColumns a db).now = db.now := rfl

theorem taskColsRow_id (a : UpdateArgs) (now : Nat) (t : Task) :
    (taskColsRow a now t).id = t.id := rfl

theorem findTask_applyTaskColumns (a : UpdateArgs) (db : DB) (x : Nat) :
    findTask (applyTaskColumns a db) x =
      (findTask db x).map (fun t => if t.id = a.id then taskColsRow a db.now t else t) := by
  unfold findTask applyTaskColumns
  exact find?_map_of_id _ _ (by intro t; split <;> rfl) x

theorem findTask_applyTaskColumns_self {a : UpdateArgs} {db : DB} {t : Task}
    (h : findTask db a.id = some t) :
    findTask (applyTaskColumns a db) a.id = some (taskColsRow a db.now t) := by
  rw [findTask_applyTaskColumns, h]
  have hid := findTask_mem_id h
  simp [hid]

theorem findTask_applyTaskColumns_other {a : UpdateArgs} {db : DB} {x : Nat}
    (hx : x ≠ a.id) :
    findTask (applyTaskColumns a db) x = findTask db x := by
  rw [findTask_applyTaskColumns]
  cases h : findTask db x with
  | none => rfl
  | some t =>
    have hid := findTask_mem_id h
    simp [hid, hx]

theorem autoTrack_deps (tid : Nat) (ti : String) (s : St) :
    (taskAutoTrack tid ti s).1.deps = s.1.deps := by
  unfold taskAutoTrack
  cases latestInProgressEntry s.1 tid with
  | none => rfl
  | some e => dsimp only; split <;> rfl

theorem autoTrack_now (tid : Nat) (ti : String) (s : St) :
    (taskAutoTrack tid ti s).1.now = s.1.now := by
  unfold taskAutoTrack
  cases latestInProgressEntry s.1 tid with
  | none => rfl
  | some e => dsimp only; split <;> rfl

theorem statusOf_autoTrack (tid : Nat) (ti : String) (s : St) (x : Nat) :
    statusOf (taskAutoTrack tid ti s).1 x = statusOf s.1 x := by
  unfold taskAutoTrack
  cases latestInProgressEntry s.1 tid with
  | none => rfl
  | some e =>
    dsimp only
    split
    · simp only [logActivity_fst, commit_fst]
      unfold statusOf
      rw [findTask_appendLog]
      have := statusOf_setActualHours tid (roundHours ((s.1.now : ℤ) - (e.createdAt : ℤ))) s.1 x
      unfold statusOf at this
      exact this
    · rfl

theorem autoTrack_inv (tid : Nat) (ti : String) (s : St) (T : Nat)
    (hinv : depInvariantAt s.1 T) :
    depInvariantAt (taskAutoTrack tid ti s).1 T :=
  depInvariant_transport T (fun x => statusOf_autoTrack tid ti s x)
    (autoTrack_deps tid ti s) hinv

theorem successorIds_congr {d1 d2 : DB} (x : Nat) (h : d2.deps = d1.deps) :
    successorIds d2 x = successorIds d1 x := by
  unfold successorIds
  rw [h]

/-! ### Composition lemmas for `handleTaskUpdate` -/

theorem logActivity_tasks (et : String) (ei : Nat) (ac : String) (fn : Option String)
    (ov nv : Option LogVal) (su : String) (s : St) :
    (logActivity et ei ac fn ov nv su s).1.tasks = s.1.tasks := rfl

theorem logActivity_deps (et : String) (ei : Nat) (ac : String) (fn : Option String)
    (ov nv : Option LogVal) (su : String) (s : St) :
    (logActivity et ei ac fn ov nv su s).1.deps = s.1.deps := rfl

theorem logActivity_now (et : String) (ei : Nat) (ac : String) (fn : Option String)
    (ov nv : Option LogVal) (su : String) (s : St) :
    (logActivity et ei ac fn ov nv su s).1.now = s.1.now := rfl

theorem findTask_logActivity (et : String) (ei : Nat) (ac : String) (fn : Option String)
    (ov nv : Option LogVal) (su : String) (s : St) (x : Nat) :
    findTask (logActivity et ei ac fn ov nv su s).1 x = findTask s.1 x := rfl

theorem taskColsRow_status (a : UpdateArgs) (now : Nat) (t : Task) :
    (taskColsRow a now t).status = Option.getD a.status t.status := rfl

theorem taskColsRow_actualHours (a : UpdateArgs) (now : Nat) (t : Task) :
    (taskColsRow a now t).actualHours = updOpt a.actualHours t.actualHours := rfl

theorem taskStatusChanged_true {a : UpdateArgs} {oldRow : Task} {st : Status}
    (h : a.status = some st) (hne : oldRow.status ≠ st) :
    taskStatusChanged a oldRow = true := by
  unfold taskStatusChanged
  rw [h]
  simpa using hne

theorem taskStatusChanged_none {a : UpdateArgs} (oldRow : Task) (h : a.status = none) :
    taskStatusChanged a oldRow = false := by
  unfold taskStatusChanged
  rw [h]

theorem hasTaskUpdateCols_of_status {a : UpdateArgs} (h : (a.status).isSome = true) :
    hasTaskUpdateCols a = true := by
  unfold hasTaskUpdateCols
  simp [h]

theorem handleTaskUpdate_cols_eq {db : DB} {a : UpdateArgs} {oldRow : Task}
    (h : findTask db a.id = some oldRow) (hc : hasTaskUpdateCols a = true) :
    handleTaskUpdate db a =
      handleTaskUpdateRest a oldRow (taskColsRow a db.now oldRow)
        (logEntityUpdate "task" a.id (taskColsRow a db.now oldRow).title oldRow
          (taskColsRow a db.now oldRow) trackedTaskFields
          (commit (applyTaskColumns a) (db, []))) := by
  unfold handleTaskUpdate
  simp [h, hc]

theorem handleTaskUpdate_deponly_eq {db : DB} {a : UpdateArgs} {oldRow : Task}
    (h : findTask db a.id = some oldRow) (hc : hasTaskUpdateCols a = false)
    (hd : (a.dependsOn).isSome = true) :
    handleTaskUpdate db a = handleTaskUpdateRest a oldRow oldRow (db, []) := by
  unfold handleTaskUpdate
  simp [h, hc, hd]

theorem handleTaskUpdateRest_none {a : UpdateArgs} (oldRow newRow1 : Task) (s : St)
    (hd : a.dependsOn = none) :
    handleTaskUpdateRest a oldRow newRow1 s =
      taskUpdateTail a oldRow ((findTask s.1 a.id).getD newRow1) s := by
  unfold handleTaskUpdateRest
  rw [hd]

theorem handleTaskUpdateRest_some {a : UpdateArgs} {l : List Nat}
    (oldRow newRow1 : Task) (s : St) (hd : a.dependsOn = some l) :
    handleTaskUpdateRest a oldRow newRow1 s =
      taskUpdateTail a oldRow
        ((findTask (taskDepBlock a.id l newRow1.title s).1 a.id).getD newRow1)
        (taskDepBlock a.id l newRow1.title s) := by
  unfold handleTaskUpdateRest
  rw [hd]

theorem taskUpdateTail_db_inv (a : UpdateArgs) (oldRow nr2 : Task) (s5 : St) (T : Nat)
    (h : depInvariantAt s5.1 T) :
    depInvariantAt (taskUpdateTail a oldRow nr2 s5).db T := by
  unfold taskUpdateTail
  dsimp only
  have h7 : depInvariantAt (if taskStatusChanged a oldRow = true ∧
      a.status = some Status.done ∧ truthyQ a.actualHours = false ∧
      truthyQ nr2.actualHours = false then
      taskAutoTrack a.id nr2.title s5 else s5).1 T := by
    split_ifs with hc
    · exact autoTrack_inv _ _ _ _ h
    · exact h
  split_ifs at h7 ⊢ <;>
    first
      | exact h7
      | (rw [reevaluateDownstream_eq]; exact foldEval_preserves_inv _ _ _ h7)

theorem taskUpdateTail_inv_succ (a : UpdateArgs) (oldRow nr2 : Task) (s5 : St) (T : Nat)
    (hsc : taskStatusChanged a oldRow = true) (hdone : a.status = some Status.done)
    (hT : T ∈ successorIds s5.1 a.id) :
    depInvariantAt (taskUpdateTail a oldRow nr2 s5).db T := by
  unfold taskUpdateTail
  dsimp only
  rw [if_pos ⟨hsc, hdone⟩, reevaluateDownstream_eq]
  apply foldEval_establishes_inv
  split_ifs with hc
  · rw [successorIds_congr a.id (autoTrack_deps a.id nr2.title s5)]
    exact hT
  · exact hT

theorem depInvariantAt_taskDepBlock_self (tid : Nat) (l : List Nat) (ti : String) (s : St) :
    depInvariantAt (taskDepBlock tid l ti s).1 tid := by
  unfold taskDepBlock
  exact eval_establishes_inv _ _

theorem taskDepBlock_mem_deps {tid : Nat} {p : Nat × Nat} (l : List Nat) (ti : String)
    (s : St) (hp : p ∈ s.1.deps) (hne : p.1 ≠ tid) :
    p ∈ (taskDepBlock tid l ti s).1.deps := by
  unfold taskDepBlock
  rw [eval_deps, logActivity_deps]
  exact mem_setDependencies_of_mem l s hp hne

/-- Trigger (a): a single-task update that replaces the predecessor set leaves
the blocking invariant holding for the updated task. -/
theorem handleTaskUpdate_inv_replaced {db : DB} {a : UpdateArgs} {t0 : Task}
    (h : findTask db a.id = some t0) {l : List Nat} (hd : a.dependsOn = some l) :
    depInvariantAt (handleTaskUpdate db a).db a.id := by
  by_cases hc : hasTaskUpdateCols a = true
  · rw [handleTaskUpdate_cols_eq h hc, handleTaskUpdateRest_some _ _ _ hd]
    exact taskUpdateTail_db_inv _ _ _ _ _ (depInvariantAt_taskDepBlock_self _ _ _ _)
  · rw [handleTaskUpdate_deponly_eq h (Bool.not_eq_true _ ▸ hc) (by rw [hd]; rfl),
      handleTaskUpdateRest_some _ _ _ hd]
    exact taskUpdateTail_db_inv _ _ _ _ _ (depInvariantAt_taskDepBlock_self _ _ _ _)

/-- Trigger (b): a single-task update that moves a task into `done` leaves the
blocking invariant holding for every task that depends on it. -/
theorem handleTaskUpdate_inv_pred_done {db : DB} {a : UpdateArgs} {tp : Task} {T : Nat}
    (h : findTask db a.id = some tp) (hnd : tp.status ≠ Status.done)
    (hst : a.status = some Status.done) (hT : (T, a.id) ∈ db.deps) :
    depInvariantAt (handleTaskUpdate db a).db T := by
  have hc : hasTaskUpdateCols a = true :=
    hasTaskUpdateCols_of_status (by rw [hst]; rfl)
  have hsc : taskStatusChanged a tp = true := taskStatusChanged_true hst hnd
  rw [handleTaskUpdate_cols_eq h hc]
  cases hdep : a.dependsOn with
  | none =>
    rw [handleTaskUpdateRest_none _ _ _ hdep]
    apply taskUpdateTail_inv_succ _ _ _ _ _ hsc hst
    have hdeps : (logEntityUpdate "task" a.id (taskColsRow a db.now tp).title tp
        (taskColsRow a db.now tp) trackedTaskFields
        (commit (applyTaskColumns a) (db, []))).1.deps = db.deps := by
      rw [logEntityUpdate_deps, commit_fst, applyTaskColumns_deps]
    rw [successorIds_congr a.id hdeps]
    exact mem_successorIds hT
  | some l =>
    rw [handleTaskUpdateRest_some _ _ _ hdep]
    by_cases hTid : T = a.id
    · subst hTid
      exact taskUpdateTail_db_inv _ _ _ _ _ (depInvariantAt_taskDepBlock_self _ _ _ _)
    · apply taskUpdateTail_inv_succ _ _ _ _ _ hsc hst
      apply mem_successorIds
      apply taskDepBlock_mem_deps _ _ _ _ hTid
      have hdeps : (logEntityUpdate "task" a.id (taskColsRow a db.now tp).title tp
          (taskColsRow a db.now tp) trackedTaskFields
          (commit (applyTaskColumns a) (db, []))).1.deps = db.deps := by
        rw [logEntityUpdate_deps, commit_fst, applyTaskColumns_deps]
      rw [hdeps]
      exact hT

theorem mem_predEdges {db : DB} {x q : Nat} (h : (x, q) ∈ db.deps) :
    q ∈ predEdges db x := by
  unfold predEdges
  exact List.mem_map.mpr ⟨(x, q), List.mem_filter.mpr ⟨h, by simp⟩, rfl⟩

theorem predEdges_mem {db : DB} {x q : Nat} (h : q ∈ predEdges db x) :
    (x, q) ∈ db.deps := by
  unfold predEdges at h
  obtain ⟨e, he, hq⟩ := List.mem_map.mp h
  obtain ⟨hmem, hfst⟩ := List.mem_filter.mp he
  have h1 : e.1 = x := by simpa using hfst
  have : e = (x, q) := by
    cases e
    simp only at h1 hq
    rw [h1, hq]
  rw [← this]
  exact hmem

theorem successorIds_mem {db : DB} {x q : Nat} (h : x ∈ successorIds db q) :
    (x, q) ∈ db.deps := by
  unfold successorIds at h
  obtain ⟨e, he, hx⟩ := List.mem_map.mp h
  obtain ⟨hmem, hsnd⟩ := List.mem_filter.mp he
  have h2 : e.2 = q := by simpa using hsnd
  have : e = (x, q) := by
    cases e
    simp only at h2 hx
    rw [h2, hx]
  rw [← this]
  exact hmem

theorem statusOf_foldEval_not_mem {l : List Nat} {x : Nat} (s : St) (hx : x ∉ l) :
    statusOf (foldEval l s).1 x = statusOf s.1 x := by
  unfold statusOf
  rw [findTask_foldEval_not_mem s hx]

theorem taskUpdateTail_statusOf_frame (a : UpdateArgs) (oldRow nr2 : Task) (s5 : St)
    (x : Nat) (hx : x ∉ successorIds s5.1 a.id) :
    statusOf (taskUpdateTail a oldRow nr2 s5).db x = statusOf s5.1 x := by
  unfold taskUpdateTail
  dsimp only
  set s7 := if taskStatusChanged a oldRow = true ∧ a.status = some Status.done ∧
      truthyQ a.actualHours = false ∧ truthyQ nr2.actualHours = false then
    taskAutoTrack a.id nr2.title s5 else s5 with hs7
  have h71 : ∀ y, statusOf s7.1 y = statusOf s5.1 y := by
    intro y
    rw [hs7]
    split_ifs with hc
    · exact statusOf_autoTrack _ _ _ _
    · rfl
  have h72 : s7.1.deps = s5.1.deps := by
    rw [hs7]
    split_ifs with hc
    · exact autoTrack_deps _ _ _
    · rfl
  split_ifs with hc2
  · rw [reevaluateDownstream_eq, statusOf_foldEval_not_mem s7
      (by rw [successorIds_congr a.id h72]; exact hx), h71]
  · exact h71 x

theorem taskUpdateTail_statusOf_todo (a : UpdateArgs) (oldRow nr2 : Task) (s5 : St)
    (b : Nat) (hsc : taskStatusChanged a oldRow = true)
    (hdone : a.status = some Status.done)
    (hu : unmetCount s5.1 b = 0) (hp : predEdges s5.1 b ≠ [])
    (hst : statusOf s5.1 b = some Status.blocked ∨ statusOf s5.1 b = some Status.todo)
    (hb : b ∈ successorIds s5.1 a.id) :
    statusOf (taskUpdateTail a oldRow nr2 s5).db b = some Status.todo := by
  unfold taskUpdateTail
  dsimp only
  set s7 := if taskStatusChanged a oldRow = true ∧ a.status = some Status.done ∧
      truthyQ a.actualHours = false ∧ truthyQ nr2.actualHours = false then
    taskAutoTrack a.id nr2.title s5 else s5 with hs7
  have h71 : ∀ y, statusOf s7.1 y = statusOf s5.1 y := by
    intro y
    rw [hs7]
    split_ifs with hc
    · exact statusOf_autoTrack _ _ _ _
    · rfl
  have h72 : s7.1.deps = s5.1.deps := by
    rw [hs7]
    split_ifs with hc
    · exact autoTrack_deps _ _ _
    · rfl
  rw [if_pos ⟨hsc, hdone⟩, reevaluateDownstream_eq]
  apply statusOf_foldEval_todo
  · rw [unmetCount_congr b h72 (fun p => unmetAt_congr p (h71 p))]
    exact hu
  · unfold predEdges
    rw [h72]
    exact hp
  · rw [h71]
    exact hst
  · rw [successorIds_congr a.id h72]
    exact Or.inl hb

/-- C5: the cascade triggered by a task transitioning into `done` is
single-hop.  For a chain where `b` depends only on `a.id` and `c` depends on
`b`, with `b` and `c` both blocked, an update that moves `a.id` into `done`
moves `b` from `blocked` to `todo`, leaves `c` blocked, and in general never
changes the status of any task that is not a direct successor of the
completed task. -/
theorem c5_cascade_single_hop {db : DB} {a : UpdateArgs} {ta : Task} {b c : Nat}
    (hfind : findTask db a.id = some ta) (hnd : ta.status ≠ Status.done)
    (hst : a.status = some Status.done) (hdep : a.dependsOn = none)
    (hba : (b, a.id) ∈ db.deps) (hbonly : ∀ e ∈ db.deps, e.1 = b → e.2 = a.id)
    (hbst : statusOf db b = some Status.blocked) (hbne : b ≠ a.id)
    (hcb : (c, b) ∈ db.deps) (hcst : statusOf db c = some Status.blocked)
    (hcne : c ≠ a.id) (hca : (c, a.id) ∉ db.deps) :
    statusOf (handleTaskUpdate db a).db b = some Status.todo ∧
    statusOf (handleTaskUpdate db a).db c = some Status.blocked ∧
    ∀ x, x ≠ a.id → (x, a.id) ∉ db.deps →
      statusOf (handleTaskUpdate db a).db x = statusOf db x := by
  have hc : hasTaskUpdateCols a = true :=
    hasTaskUpdateCols_of_status (by rw [hst]; rfl)
  have hsc : taskStatusChanged a ta = true := taskStatusChanged_true hst hnd
  rw [handleTaskUpdate_cols_eq hfind hc, handleTaskUpdateRest_none _ _ _ hdep]
  set s2 : St := logEntityUpdate "task" a.id (taskColsRow a db.now ta).title ta
    (taskColsRow a db.now ta) trackedTaskFields
    (commit (applyTaskColumns a) (db, [])) with hs2
  have hF1 : s2.1.deps = db.deps := by
    rw [hs2, logEntityUpdate_deps, commit_fst, applyTaskColumns_deps]
  have hF2 : ∀ x, x ≠ a.id → statusOf s2.1 x = statusOf db x := by
    intro x hx
    unfold statusOf
    rw [hs2, findTask_logEntityUpdate, commit_fst, findTask_applyTaskColumns_other hx]
  have hF3 : statusOf s2.1 a.id = some Status.done := by
    unfold statusOf
    rw [hs2, findTask_logEntityUpdate, commit_fst, findTask_applyTaskColumns_self hfind]
    show some (taskColsRow a db.now ta).status = some Status.done
    rw [taskColsRow_status, hst]
    rfl
  have hFrame : ∀ x, x ≠ a.id → (x, a.id) ∉ db.deps →
      statusOf (taskUpdateTail a ta ((findTask s2.1 a.id).getD
        (taskColsRow a db.now ta)) s2).db x = statusOf db x := by
    intro x hx hxe
    rw [taskUpdateTail_statusOf_frame a ta _ s2 x
      (fun hmem => hxe (by rw [← hF1]; exact successorIds_mem hmem))]
    exact hF2 x hx
  refine ⟨?_, ?_, ?_⟩
  · apply taskUpdateTail_statusOf_todo a ta _ s2 b hsc hst
    · rw [unmetCount_eq_filter]
      rw [List.length_eq_zero]
      rw [List.filter_eq_nil_iff]
      intro p hp
      have hpe : (b, p) ∈ db.deps := by
        apply predEdges_mem
        unfold predEdges at hp ⊢
        rw [hF1] at hp
        exact hp
      have hpa : p = a.id := hbonly (b, p) hpe rfl
      subst hpa
      unfold unmetAt
      rw [hF3]
      simp
    · have hmem : a.id ∈ predEdges s2.1 b := by
        unfold predEdges
        rw [hF1]
        exact mem_predEdges hba
      exact List.ne_nil_of_mem hmem
    · rw [hF2 b hbne]
      exact Or.inl hbst
    · apply mem_successorIds
      rw [hF1]
      exact hba
  · rw [taskUpdateTail_statusOf_frame a ta _ s2 c
      (fun hmem => hca (by rw [← hF1]; exact successorIds_mem hmem)), hF2 c hcne]
    exact hcst
  · intro x hx hxe
    exact hFrame x hx hxe

/-- C2: for a task with at least one declared predecessor the reevaluation
computes the new status as a pure function of the current status and the
unmet-prerequisite count: `blocked` exactly when the count is positive and the
status is neither `blocked` nor `done`, `todo` exactly when the count is zero
and the status is `blocked`, unchanged otherwise; a task with zero declared
predecessor edges is never auto-transitioned (the state is untouched). -/
theorem c2_status_resolver (db : DB) (tr : List DB) (tid : Nat) (t : Task)
    (h : findTask db tid = some t) :
    statusOf (evaluateAndUpdateDependencies tid (db, tr)).1 tid =
      some (if predEdges db tid = [] then t.status
        else if 0 < unmetCount db tid ∧ t.status ≠ Status.blocked ∧ t.status ≠ Status.done
          then Status.blocked
        else if unmetCount db tid = 0 ∧ t.status = Status.blocked then Status.todo
        else t.status) ∧
    (predEdges db tid = [] → evaluateAndUpdateDependencies tid (db, tr) = (db, tr)) :=
  ⟨statusOf_eval_self h, fun hp => eval_no_preds hp⟩

theorem foldIns_filter (tid : Nat) (l : List Nat) (s1 : St) :
    foldIns tid l s1 = foldIns tid (l.filter (fun d => d != tid)) s1 := by
  induction l generalizing s1 with
  | nil => rfl
  | cons d rest ih =>
    rw [foldIns_cons, List.filter_cons]
    by_cases hd : d = tid
    · rw [if_pos hd]
      simp only [hd, bne_self_eq_false, Bool.false_eq_true, if_false]
      exact ih s1
    · rw [if_neg hd]
      have hb : (d != tid) = true := by simpa using hd
      simp only [hb, if_true]
      rw [foldIns_cons, if_neg hd]
      exact ih _

/-- C6: replacing a predecessor list that contains the task itself stores
exactly the same state (edge set, log, committed statements) as replacing it
with the self-reference removed; no error is raised (the function is total). -/
theorem c6_self_dependency_filtered (tid : Nat) (l : List Nat) (s : St) :
    setDependencies tid l s = setDependencies tid (l.filter (fun d => d != tid)) s := by
  rw [setDependencies_eq, setDependencies_eq]
  exact foldIns_filter tid l _

theorem foldIns_nodup (tid : Nat) (l : List Nat) (s : St) (h : s.1.deps.Nodup) :
    (foldIns tid l s).1.deps.Nodup := by
  induction l generalizing s with
  | nil => exact h
  | cons d rest ih =>
    rw [foldIns_cons]
    by_cases hd : d = tid
    · rw [if_pos hd]
      exact ih s h
    · rw [if_neg hd]
      apply ih
      rw [commit_fst]
      unfold insertDepEdge
      split_ifs with hm
      · exact h
      · refine List.Nodup.append h (List.nodup_singleton _) ?_
        intro x hx hxs
        rw [List.mem_singleton] at hxs
        subst hxs
        exact hm hx

/-- C7: after a dependency-edge-set replacement the stored edge list has at
most one edge per ordered pair (no duplicate pairs), for every input
predecessor list, provided it had none before. -/
theorem c7_edge_set_nodup (tid : Nat) (l : List Nat) (s : St)
    (h : s.1.deps.Nodup) : (setDependencies tid l s).1.deps.Nodup := by
  rw [setDependencies_eq]
  apply foldIns_nodup
  rw [commit_fst]
  exact h.filter _

theorem taskUpdateTail_noop (a : UpdateArgs) (oldRow nr2 : Task) (s5 : St)
    (hsc : taskStatusChanged a oldRow = false) :
    (taskUpdateTail a oldRow nr2 s5).db = s5.1 := by
  unfold taskUpdateTail
  dsimp only
  rw [if_neg (by simp [hsc]), if_neg (by simp [hsc])]

theorem taskColsRow_priority (a : UpdateArgs) (now : Nat) (t : Task) :
    (taskColsRow a now t).priority = Option.getD a.priority t.priority := rfl

theorem taskColsRow_assignedTo (a : UpdateArgs) (now : Nat) (t : Task) :
    (taskColsRow a now t).assignedTo = updOpt a.assignedTo t.assignedTo := rfl

theorem taskColsRow_title (a : UpdateArgs) (now : Nat) (t : Task) :
    (taskColsRow a now t).title = Option.getD a.title t.title := rfl

/-- C10: an update that supplies none of the four tracked fields (status,
priority, assignee, title) and no dependency list leaves the activity log
byte-for-byte unchanged, whatever other columns it updates. -/
theorem c10_untracked_update_no_audit (db : DB) (a : UpdateArgs)
    (h1 : a.status = none) (h2 : a.priority = none) (h3 : a.assignedTo = none)
    (h4 : a.title = none) (h5 : a.dependsOn = none) :
    (handleTaskUpdate db a).db.log = db.log := by
  cases hf : findTask db a.id with
  | none =>
    unfold handleTaskUpdate
    rw [hf]
  | some oldRow =>
    by_cases hc : hasTaskUpdateCols a = true
    · have hfields : ∀ f ∈ trackedTaskFields,
          taskFieldStr f oldRow = taskFieldStr f (taskColsRow a db.now oldRow) := by
        intro f hfm
        simp only [trackedTaskFields, List.mem_cons, List.mem_singleton,
          List.not_mem_nil, or_false] at hfm
        rcases hfm with h | h | h | h <;> subst h <;>
          simp [taskFieldStr, taskColsRow_status, taskColsRow_priority,
            taskColsRow_assignedTo, taskColsRow_title, h1, h2, h3, h4, updOpt]
      rw [handleTaskUpdate_cols_eq hf hc, handleTaskUpdateRest_none _ _ _ h5,
        taskUpdateTail_noop _ _ _ _ (taskStatusChanged_none _ h1),
        logEntityUpdate_no_change _ _ _ _ _ _ _ hfields, commit_fst,
        applyTaskColumns_log]
    · have hc2 : hasTaskUpdateCols a = false := by
        cases hval : hasTaskUpdateCols a
        · rfl
        · exact absurd hval hc
      unfold handleTaskUpdate
      simp [hf, hc2, h5]

theorem status_str_inj : ∀ a b : Status, a.str = b.str → a = b := by
  intro a b
  cases a <;> cases b <;> decide

theorem taskFieldStr_status (t : Task) : taskFieldStr "status" t = t.status.str := rfl

theorem taskFieldStr_priority (t : Task) :
    taskFieldStr "priority" t = t.priority.str := rfl

theorem taskFieldStr_assigned (t : Task) :
    taskFieldStr "assigned_to" t = t.assignedTo.getD "" := rfl

theorem taskFieldStr_title (t : Task) : taskFieldStr "title" t = t.title := rfl

theorem taskUpdateTail_notdone (a : UpdateArgs) (oldRow nr2 : Task) (s5 : St)
    {st : Status} (hs : a.status = some st) (hnd : st ≠ Status.done) :
    (taskUpdateTail a oldRow nr2 s5).db = s5.1 := by
  unfold taskUpdateTail
  dsimp only
  have hcond : ¬ a.status = some Status.done := by
    rw [hs]
    intro hcon
    exact hnd (Option.some.inj hcon)
  split_ifs <;>
    first
      | rfl
      | (exfalso; apply hcond; tauto)

theorem prio_str_inj : ∀ a b : Priority, a.str = b.str → a = b := by
  intro a b
  cases a <;> cases b <;> decide

/-- When exactly the status and the priority differ among the tracked fields,
the diffing loop of `logEntityUpdate` emits exactly the `status_changed` entry
followed by the priority `updated` entry. -/
theorem logEntityUpdate_status_priority (et : String) (ei : Nat) (en : String)
    (o n : Task) (s : St)
    (hst : o.status ≠ n.status) (hpr : o.priority ≠ n.priority)
    (hasg : o.assignedTo = n.assignedTo) (hti : o.title = n.title) :
    logEntityUpdate et ei en o n trackedTaskFields s =
      logActivity et ei "updated" (some "priority") (some (LogVal.str o.priority.str))
        (some (LogVal.str n.priority.str))
        (et ++ " " ++ en ++ " " ++ "priority" ++ ": " ++ o.priority.str ++ " -> " ++ n.priority.str)
        (logActivity et ei "status_changed" (some "status")
          (some (LogVal.str o.status.str)) (some (LogVal.str n.status.str))
          (et ++ " " ++ en ++ " " ++ "status" ++ ": " ++ o.status.str ++ " -> " ++ n.status.str)
          s) := by
  have hstr : taskFieldStr "status" o ≠ taskFieldStr "status" n := by
    rw [taskFieldStr_status, taskFieldStr_status]
    exact fun hh => hst (status_str_inj _ _ hh)
  have hprs : taskFieldStr "priority" o ≠ taskFieldStr "priority" n := by
    rw [taskFieldStr_priority, taskFieldStr_priority]
    exact fun hh => hpr (prio_str_inj _ _ hh)
  rw [show trackedTaskFields = ["status", "priority", "assigned_to", "title"] from rfl,
    logEntityUpdate_cons, if_neg hstr,
    logEntityUpdate_cons, if_neg hprs,
    logEntityUpdate_cons,
    if_pos (by rw [taskFieldStr_assigned, taskFieldStr_assigned, hasg]),
    logEntityUpdate_cons,
    if_pos (by rw [taskFieldStr_title, taskFieldStr_title, hti]),
    logEntityUpdate_nil]
  simp [taskFieldStr_status, taskFieldStr_priority]

/-- C9 (amended): a single-task update that changes exactly the status and the
priority among the tracked fields, supplies no dependency list, and sets a new
status other than `done` (so the time-tracking estimator cannot fire) appends
exactly two audit entries for the task: one `status_changed` for the status
and one `updated` for the priority, each with the correct old and new values,
in that order. -/
theorem c9_status_priority_audit {db : DB} {a : UpdateArgs} {t : Task}
    {st : Status} {p : Priority}
    (hf : findTask db a.id = some t)
    (hs : a.status = some st) (hsn : st ≠ t.status) (hsd : st ≠ Status.done)
    (hp : a.priority = some p) (hpn : p ≠ t.priority)
    (ht : a.title = none) (hasg : a.assignedTo = none) (hd : a.dependsOn = none) :
    (handleTaskUpdate db a).db.log = db.log ++
      [{ entityType := "task", entityId := a.id, action := "status_changed",
         fieldName := some "status", oldValue := some (LogVal.str t.status.str),
         newValue := some (LogVal.str st.str),
         summary := "task" ++ " " ++ t.title ++ " " ++ "status" ++ ": " ++
           t.status.str ++ " -> " ++ st.str,
         createdAt := db.now },
       { entityType := "task", entityId := a.id, action := "updated",
         fieldName := some "priority", oldValue := some (LogVal.str t.priority.str),
         newValue := some (LogVal.str p.str),
         summary := "task" ++ " " ++ t.title ++ " " ++ "priority" ++ ": " ++
           t.priority.str ++ " -> " ++ p.str,
         createdAt := db.now }] := by
  have hc : hasTaskUpdateCols a = true := hasTaskUpdateCols_of_status (by rw [hs]; rfl)
  rw [handleTaskUpdate_cols_eq hf hc, handleTaskUpdateRest_none _ _ _ hd,
    taskUpdateTail_notdone _ _ _ _ hs hsd,
    logEntityUpdate_status_priority _ _ _ _ _ _
      (by rw [taskColsRow_status, hs]; exact fun hh => hsn hh.symm)
      (by rw [taskColsRow_priority, hp]; exact fun hh => hpn hh.symm)
      (by rw [taskColsRow_assignedTo, hasg]; rfl)
      (by rw [taskColsRow_title, ht]; rfl)]
  simp [logActivity_fst, appendLog, commit_fst, applyTaskColumns_log,
    applyTaskColumns_now, appendLog_now, taskColsRow_status, taskColsRow_priority,
    taskColsRow_title, hs, hp, ht]

/-! ### Lemmas for the time-tracking estimator -/

theorem filter_append_nil {α : Type} (l es : List α) (p : α → Bool)
    (h : ∀ e ∈ es, p e = false) : (l ++ es).filter p = l.filter p := by
  rw [List.filter_append]
  have hnil : es.filter p = [] :=
    List.filter_eq_nil_iff.mpr (fun e he => by simp [h e he])
  rw [hnil, List.append_nil]

theorem latestInProgressEntry_log_congr {d1 d2 : DB} (tid : Nat) {es : List LogEntry}
    (h : d2.log = d1.log ++ es)
    (hes : ∀ e ∈ es, matchesInProgressStart tid e = false) :
    latestInProgressEntry d2 tid = latestInProgressEntry d1 tid := by
  unfold latestInProgressEntry
  rw [h, filter_append_nil _ _ _ hes]

theorem taskAutoTrack_none {tid : Nat} {ti : String} {s : St}
    (h : latestInProgressEntry s.1 tid = none) :
    taskAutoTrack tid ti s = s := by
  unfold taskAutoTrack
  simp only [h]

theorem taskAutoTrack_some_nonpos {tid : Nat} {ti : String} {s : St} {e : LogEntry}
    (h : latestInProgressEntry s.1 tid = some e)
    (hnp : ¬ 0 < roundHours ((s.1.now : ℤ) - (e.createdAt : ℤ))) :
    taskAutoTrack tid ti s = s := by
  unfold taskAutoTrack
  simp only [h]
  rw [if_neg hnp]

theorem taskAutoTrack_some_pos {tid : Nat} {ti : String} {s : St} {e : LogEntry}
    (h : latestInProgressEntry s.1 tid = some e)
    (hp : 0 < roundHours ((s.1.now : ℤ) - (e.createdAt : ℤ))) :
    taskAutoTrack tid ti s =
      logActivity "task" tid "updated" (some "actual_hours") none
        (some (LogVal.num (roundHours ((s.1.now : ℤ) - (e.createdAt : ℤ)))))
        ("Task " ++ ti ++ " auto-tracked: " ++
          toString (roundHours ((s.1.now : ℤ) - (e.createdAt : ℤ))) ++ "h")
        (commit (setActualHours tid (roundHours ((s.1.now : ℤ) - (e.createdAt : ℤ)))) s) := by
  unfold taskAutoTrack
  simp only [h]
  rw [if_pos hp]

/-- The entries emitted by the diffing loop for a row whose new status is
`done` can neither be a transition into `in_progress` nor an actual-hours
entry. -/
theorem tracked_entry_props {tid : Nat} {e : LogEntry} {nr : Task}
    (hnr : nr.status = Status.done)
    (hp : ∃ f ∈ trackedTaskFields, e.fieldName = some f ∧
      e.action = (if f = "status" then "status_changed" else "updated") ∧
      e.newValue = some (LogVal.str (taskFieldStr f nr))) :
    matchesInProgressStart tid e = false ∧ ahBool tid e = false := by
  obtain ⟨f, hfm, h1, h2, h3⟩ := hp
  simp only [trackedTaskFields, List.mem_cons, List.mem_singleton,
    List.not_mem_nil, or_false] at hfm
  unfold matchesInProgressStart ahBool
  rcases hfm with h | h | h | h <;> subst h
  · refine ⟨?_, ?_⟩
    · simp only [decide_eq_false_iff_not]
      rintro ⟨-, -, -, -, hv⟩
      rw [h3, taskFieldStr_status, hnr] at hv
      simp [Status.str] at hv
    · simp only [decide_eq_false_iff_not]
      rintro ⟨-, hfn⟩
      rw [h1] at hfn
      simp at hfn
  · refine ⟨?_, ?_⟩
    · simp only [decide_eq_false_iff_not]
      rintro ⟨-, -, -, hfn, -⟩
      rw [h1] at hfn
      simp at hfn
    · simp only [decide_eq_false_iff_not]
      rintro ⟨-, hfn⟩
      rw [h1] at hfn
      simp at hfn
  · refine ⟨?_, ?_⟩
    · simp only [decide_eq_false_iff_not]
      rintro ⟨-, -, -, hfn, -⟩
      rw [h1] at hfn
      simp at hfn
    · simp only [decide_eq_false_iff_not]
      rintro ⟨-, hfn⟩
      rw [h1] at hfn
      simp at hfn
  · refine ⟨?_, ?_⟩
    · simp only [decide_eq_false_iff_not]
      rintro ⟨-, -, -, hfn, -⟩
      rw [h1] at hfn
      simp at hfn
    · simp only [decide_eq_false_iff_not]
      rintro ⟨-, hfn⟩
      rw [h1] at hfn
      simp at hfn

/-- When the task is already `done`, the reevaluation at the end of the
dependency block is a no-op, so the block is exactly the edge replacement
followed by the `depends_on` audit entry. -/
theorem taskDepBlock_eval_noop {tid : Nat} (l : List Nat) (ti : String) (s : St)
    (hdone : statusOf s.1 tid = some Status.done) :
    taskDepBlock tid l ti s =
      logActivity "task" tid "updated" (some "depends_on") none
        (some (LogVal.str (if 0 < l.length then joinIds "," l else "(none)")))
        ("Task " ++ ti ++ " dependencies updated: [" ++ joinIds ", " l ++ "]")
        (setDependencies tid l s) := by
  unfold taskDepBlock
  cases hf : findTask s.1 tid with
  | none =>
    unfold statusOf at hdone
    rw [hf] at hdone
    cases hdone
  | some u =>
    have hu : u.status = Status.done := by
      unfold statusOf at hdone
      rw [hf] at hdone
      exact Option.some.inj hdone
    exact eval_done_noop
      (show findTask (logActivity "task" tid "updated" (some "depends_on") none
        (some (LogVal.str (if 0 < l.length then joinIds "," l else "(none)")))
        ("Task " ++ ti ++ " dependencies updated: [" ++ joinIds ", " l ++ "]")
        (setDependencies tid l s)).1 tid = some u by
          rw [findTask_logActivity, findTask_setDependencies]
          exact hf) hu

theorem taskUpdateTail_autotrack_spec (a : UpdateArgs) (oldRow nr2 : Task) (s5 : St)
    (hsc : taskStatusChanged a oldRow = true) (hs : a.status = some Status.done)
    (hah : truthyQ a.actualHours = false) (hex : truthyQ nr2.actualHours = false)
    (hfind5 : findTask s5.1 a.id = some nr2) :
    (∃ r, (taskUpdateTail a oldRow nr2 s5).outcome = Except.ok r) ∧
    ((latestInProgressEntry s5.1 a.id = none →
        actualHoursOf (taskUpdateTail a oldRow nr2 s5).db a.id = some nr2.actualHours ∧
        (taskUpdateTail a oldRow nr2 s5).db.log.filter (ahBool a.id) =
          s5.1.log.filter (ahBool a.id)) ∧
     (∀ e, latestInProgressEntry s5.1 a.id = some e →
        (0 < roundHours ((s5.1.now : ℤ) - (e.createdAt : ℤ)) →
          actualHoursOf (taskUpdateTail a oldRow nr2 s5).db a.id =
            some (some (roundHours ((s5.1.now : ℤ) - (e.createdAt : ℤ)))) ∧
          (taskUpdateTail a oldRow nr2 s5).db.log.filter (ahBool a.id) =
            s5.1.log.filter (ahBool a.id) ++
              [{ entityType := "task", entityId := a.id, action := "updated",
                 fieldName := some "actual_hours", oldValue := none,
                 newValue := some (LogVal.num (roundHours ((s5.1.now : ℤ) - (e.createdAt : ℤ)))),
                 summary := "Task " ++ nr2.title ++ " auto-tracked: " ++
                   toString (roundHours ((s5.1.now : ℤ) - (e.createdAt : ℤ))) ++ "h",
                 createdAt := s5.1.now }]) ∧
        (¬ 0 < roundHours ((s5.1.now : ℤ) - (e.createdAt : ℤ)) →
          actualHoursOf (taskUpdateTail a oldRow nr2 s5).db a.id = some nr2.actualHours ∧
          (taskUpdateTail a oldRow nr2 s5).db.log.filter (ahBool a.id) =
            s5.1.log.filter (ahBool a.id)))) := by
  have hid := findTask_mem_id hfind5
  unfold taskUpdateTail
  dsimp only
  rw [if_pos ⟨hsc, hs⟩, if_pos ⟨hsc, hs, hah, hex⟩, reevaluateDownstream_eq]
  refine ⟨⟨_, rfl⟩, ?_, ?_⟩
  · intro hlat
    rw [taskAutoTrack_none hlat]
    constructor
    · rw [actualHoursOf_foldEval]
      unfold actualHoursOf
      rw [hfind5]
      rfl
    · obtain ⟨es, he, hpr⟩ := foldEval_log_shape (successorIds s5.1 a.id) s5
      rw [he]
      apply filter_append_nil
      intro e hem
      have hf := (hpr e hem).1
      unfold ahBool
      simp [hf]
  · intro e hlat
    constructor
    · intro hp0
      rw [taskAutoTrack_some_pos hlat hp0]
      constructor
      · rw [actualHoursOf_foldEval]
        unfold actualHoursOf
        rw [logActivity_fst, findTask_appendLog, commit_fst, findTask_setActualHours, hfind5]
        simp [hid]
      · obtain ⟨es, he, hpr⟩ := foldEval_log_shape
          (successorIds (logActivity "task" a.id "updated" (some "actual_hours") none
            (some (LogVal.num (roundHours ((s5.1.now : ℤ) - (e.createdAt : ℤ)))))
            ("Task " ++ nr2.title ++ " auto-tracked: " ++
              toString (roundHours ((s5.1.now : ℤ) - (e.createdAt : ℤ))) ++ "h")
            (commit (setActualHours a.id (roundHours ((s5.1.now : ℤ) - (e.createdAt : ℤ)))) s5)).1 a.id)
          (logActivity "task" a.id "updated" (some "actual_hours") none
            (some (LogVal.num (roundHours ((s5.1.now : ℤ) - (e.createdAt : ℤ)))))
            ("Task " ++ nr2.title ++ " auto-tracked: " ++
              toString (roundHours ((s5.1.now : ℤ) - (e.createdAt : ℤ))) ++ "h")
            (commit (setActualHours a.id (roundHours ((s5.1.now : ℤ) - (e.createdAt : ℤ)))) s5))
        rw [he, filter_append_nil _ es _ (fun x hxm => by
          have hf := (hpr x hxm).1
          unfold ahBool
          simp [hf])]
        rw [logActivity_fst]
        show ((appendLog _ (commit (setActualHours a.id _) s5).1).log).filter (ahBool a.id) = _
        rw [commit_fst]
        unfold appendLog
        dsimp only
        rw [setActualHours_log, setActualHours_now, List.filter_append]
        congr 1
        simp [ahBool]
    · intro hnp
      rw [taskAutoTrack_some_nonpos hlat hnp]
      constructor
      · rw [actualHoursOf_foldEval]
        unfold actualHoursOf
        rw [hfind5]
        rfl
      · obtain ⟨es, he, hpr⟩ := foldEval_log_shape (successorIds s5.1 a.id) s5
        rw [he]
        apply filter_append_nil
        intro x hem
        have hf := (hpr x hem).1
        unfold ahBool
        simp [hf]

theorem c8_tail_glue {db : DB} {a : UpdateArgs} {oldRow nr1 : Task} {s5 : St}
    {es : List LogEntry}
    (hsc : taskStatusChanged a oldRow = true) (hs : a.status = some Status.done)
    (hah : truthyQ a.actualHours = false) (hex1 : truthyQ nr1.actualHours = false)
    (hfind5 : findTask s5.1 a.id = some nr1)
    (hlog : s5.1.log = db.log ++ es)
    (hes : ∀ e ∈ es, matchesInProgressStart a.id e = false ∧ ahBool a.id e = false)
    (hnow : s5.1.now = db.now) :
    (∃ r, (taskUpdateTail a oldRow nr1 s5).outcome = Except.ok r) ∧
    ((latestInProgressEntry db a.id = none →
        actualHoursOf (taskUpdateTail a oldRow nr1 s5).db a.id = some nr1.actualHours ∧
        (taskUpdateTail a oldRow nr1 s5).db.log.filter (ahBool a.id) =
          db.log.filter (ahBool a.id)) ∧
     (∀ e, latestInProgressEntry db a.id = some e →
        (0 < roundHours ((db.now : ℤ) - (e.createdAt : ℤ)) →
          actualHoursOf (taskUpdateTail a oldRow nr1 s5).db a.id =
            some (some (roundHours ((db.now : ℤ) - (e.createdAt : ℤ)))) ∧
          (taskUpdateTail a oldRow nr1 s5).db.log.filter (ahBool a.id) =
            db.log.filter (ahBool a.id) ++
              [{ entityType := "task", entityId := a.id, action := "updated",
                 fieldName := some "actual_hours", oldValue := none,
                 newValue := some (LogVal.num (roundHours ((db.now : ℤ) - (e.createdAt : ℤ)))),
                 summary := "Task " ++ nr1.title ++ " auto-tracked: " ++
                   toString (roundHours ((db.now : ℤ) - (e.createdAt : ℤ))) ++ "h",
                 createdAt := db.now }]) ∧
        (¬ 0 < roundHours ((db.now : ℤ) - (e.createdAt : ℤ)) →
          actualHoursOf (taskUpdateTail a oldRow nr1 s5).db a.id = some nr1.actualHours ∧
          (taskUpdateTail a oldRow nr1 s5).db.log.filter (ahBool a.id) =
            db.log.filter (ahBool a.id)))) := by
  have hspec := taskUpdateTail_autotrack_spec a oldRow nr1 s5 hsc hs hah hex1 hfind5
  have hlatc : latestInProgressEntry s5.1 a.id = latestInProgressEntry db a.id :=
    latestInProgressEntry_log_congr a.id hlog (fun e he => (hes e he).1)
  have hfil : s5.1.log.filter (ahBool a.id) = db.log.filter (ahBool a.id) := by
    rw [hlog]
    exact filter_append_nil _ _ _ (fun e he => (hes e he).2)
  rw [hlatc, hnow, hfil] at hspec
  exact hspec

/-- C8 (amended): when a task moves from a non-`done` status into `done`
without a caller-supplied actual-effort value and without an already-recorded
(non-null, non-zero) actual-effort value, then: if an audit entry recording
its most recent transition into `in_progress` exists, the elapsed wall-clock
time from that entry to now, in hours rounded to one decimal place, is stored
as the actual effort and one `updated` audit entry for `actual_hours` is
appended, but only when that rounded value is positive; when no such entry
exists (or the value is not positive) no effort is recorded, no such audit
entry appears, and in every case the operation raises no error. -/
theorem c8_auto_time_tracking {db : DB} {a : UpdateArgs} {t : Task}
    (hf : findTask db a.id = some t) (hs : a.status = some Status.done)
    (hnd : t.status ≠ Status.done) (hah : a.actualHours = none)
    (hex : truthyQ t.actualHours = false) :
    (∃ r, (handleTaskUpdate db a).outcome = Except.ok r) ∧
    ((latestInProgressEntry db a.id = none →
        actualHoursOf (handleTaskUpdate db a).db a.id = some t.actualHours ∧
        (handleTaskUpdate db a).db.log.filter (ahBool a.id) =
          db.log.filter (ahBool a.id)) ∧
     (∀ e, latestInProgressEntry db a.id = some e →
        (0 < roundHours ((db.now : ℤ) - (e.createdAt : ℤ)) →
          actualHoursOf (handleTaskUpdate db a).db a.id =
            some (some (roundHours ((db.now : ℤ) - (e.createdAt : ℤ)))) ∧
          (handleTaskUpdate db a).db.log.filter (ahBool a.id) =
            db.log.filter (ahBool a.id) ++
              [{ entityType := "task", entityId := a.id, action := "updated",
                 fieldName := some "actual_hours", oldValue := none,
                 newValue := some (LogVal.num (roundHours ((db.now : ℤ) - (e.createdAt : ℤ)))),
                 summary := "Task " ++ (taskColsRow a db.now t).title ++
                   " auto-tracked: " ++
                   toString (roundHours ((db.now : ℤ) - (e.createdAt : ℤ))) ++ "h",
                 createdAt := db.now }]) ∧
        (¬ 0 < roundHours ((db.now : ℤ) - (e.createdAt : ℤ)) →
          actualHoursOf (handleTaskUpdate db a).db a.id = some t.actualHours ∧
          (handleTaskUpdate db a).db.log.filter (ahBool a.id) =
            db.log.filter (ahBool a.id)))) := by
  have hc : hasTaskUpdateCols a = true := hasTaskUpdateCols_of_status (by rw [hs]; rfl)
  have hsc : taskStatusChanged a t = true := taskStatusChanged_true hs hnd
  have hahv : (taskColsRow a db.now t).actualHours = t.actualHours := by
    rw [taskColsRow_actualHours, hah]
    rfl
  have hex1 : truthyQ (taskColsRow a db.now t).actualHours = false := by
    rw [hahv]
    exact hex
  have hahb : truthyQ a.actualHours = false := by rw [hah]; rfl
  have hfind2 : findTask (logEntityUpdate "task" a.id (taskColsRow a db.now t).title t
      (taskColsRow a db.now t) trackedTaskFields
      (commit (applyTaskColumns a) (db, []))).1 a.id = some (taskColsRow a db.now t) := by
    rw [findTask_logEntityUpdate, commit_fst, findTask_applyTaskColumns_self hf]
  obtain ⟨es2, hlog2, hpr2⟩ := logEntityUpdate_log_shape "task" a.id
    (taskColsRow a db.now t).title t (taskColsRow a db.now t) trackedTaskFields
    (commit (applyTaskColumns a) (db, []))
  have hlog2b : (logEntityUpdate "task" a.id (taskColsRow a db.now t).title t
      (taskColsRow a db.now t) trackedTaskFields
      (commit (applyTaskColumns a) (db, []))).1.log = db.log ++ es2 := by
    rw [hlog2, commit_fst, applyTaskColumns_log]
  have hnr : (taskColsRow a db.now t).status = Status.done := by
    rw [taskColsRow_status, hs]
    rfl
  have hes2 : ∀ e ∈ es2, matchesInProgressStart a.id e = false ∧ ahBool a.id e = false :=
    fun e he => tracked_entry_props hnr (hpr2 e he)
  have hnow2 : (logEntityUpdate "task" a.id (taskColsRow a db.now t).title t
      (taskColsRow a db.now t) trackedTaskFields
      (commit (applyTaskColumns a) (db, []))).1.now = db.now := by
    rw [logEntityUpdate_now, commit_fst, applyTaskColumns_now]
  rw [handleTaskUpdate_cols_eq hf hc]
  rw [← hahv]
  cases hdep : a.dependsOn with
  | none =>
    rw [handleTaskUpdateRest_none _ _ _ hdep, hfind2]
    simp only [Option.getD_some]
    exact c8_tail_glue hsc hs hahb hex1 hfind2 hlog2b hes2 hnow2
  | some l =>
    rw [handleTaskUpdateRest_some _ _ _ hdep]
    have hdone2 : statusOf (logEntityUpdate "task" a.id (taskColsRow a db.now t).title t
        (taskColsRow a db.now t) trackedTaskFields
        (commit (applyTaskColumns a) (db, []))).1 a.id = some Status.done := by
      unfold statusOf
      rw [hfind2]
      show some (taskColsRow a db.now t).status = some Status.done
      rw [hnr]
    rw [taskDepBlock_eval_noop _ _ _ hdone2]
    have hfind5 : findTask (logActivity "task" a.id "updated" (some "depends_on") none
        (some (LogVal.str (if 0 < l.length then joinIds "," l else "(none)")))
        ("Task " ++ (taskColsRow a db.now t).title ++ " dependencies updated: [" ++
          joinIds ", " l ++ "]")
        (setDependencies a.id l (logEntityUpdate "task" a.id
          (taskColsRow a db.now t).title t (taskColsRow a db.now t) trackedTaskFields
          (commit (applyTaskColumns a) (db, []))))).1 a.id =
        some (taskColsRow a db.now t) := by
      rw [findTask_logActivity, findTask_setDependencies]
      exact hfind2
    rw [hfind5]
    simp only [Option.getD_some]
    have hnow5 : (setDependencies a.id l (logEntityUpdate "task" a.id
        (taskColsRow a db.now t).title t (taskColsRow a db.now t) trackedTaskFields
        (commit (applyTaskColumns a) (db, [])))).1.now = db.now := by
      rw [setDependencies_now, hnow2]
    have hlog5 : (logActivity "task" a.id "updated" (some "depends_on") none
        (some (LogVal.str (if 0 < l.length then joinIds "," l else "(none)")))
        ("Task " ++ (taskColsRow a db.now t).title ++ " dependencies updated: [" ++
          joinIds ", " l ++ "]")
        (setDependencies a.id l (logEntityUpdate "task" a.id
          (taskColsRow a db.now t).title t (taskColsRow a db.now t) trackedTaskFields
          (commit (applyTaskColumns a) (db, []))))).1.log =
        db.log ++ (es2 ++ [{
          entityType := "task", entityId := a.id, action := "updated",
          fieldName := some "depends_on", oldValue := none,
          newValue := some (LogVal.str (if 0 < l.length then joinIds "," l else "(none)")),
          summary := "Task " ++ (taskColsRow a db.now t).title ++
            " dependencies updated: [" ++ joinIds ", " l ++ "]",
          createdAt := db.now }]) := by
      rw [logActivity_fst]
      unfold appendLog
      dsimp only
      rw [setDependencies_log, hlog2b, hnow5, List.append_assoc]
    have hes5 : ∀ e ∈ es2 ++ [({
        entityType := "task", entityId := a.id, action := "updated",
        fieldName := some "depends_on", oldValue := none,
        newValue := some (LogVal.str (if 0 < l.length then joinIds "," l else "(none)")),
        summary := "Task " ++ (taskColsRow a db.now t).title ++
          " dependencies updated: [" ++ joinIds ", " l ++ "]",
        createdAt := db.now } : LogEntry)],
        matchesInProgressStart a.id e = false ∧ ahBool a.id e = false := by
      intro e he
      rcases List.mem_append.mp he with h | h
      · exact hes2 e h
      · rw [List.mem_singleton] at h
        subst h
        constructor
        · unfold matchesInProgressStart
          simp
        · unfold ahBool
          simp
    exact c8_tail_glue hsc hs hahb hex1 hfind5 hlog5 hes5
      (by rw [logActivity_now, hnow5])

/-! ### Lemmas for the batch update -/

theorem statusOf_eval_done_iff (tid y : Nat) (s : St) :
    (statusOf (evaluateAndUpdateDependencies tid s).1 y = some Status.done) ↔
      (statusOf s.1 y = some Status.done) := by
  by_cases hy : y = tid
  · subst hy
    cases hf : findTask s.1 y with
    | none => rw [eval_missing hf]
    | some t =>
      rw [statusOf_eval_self hf]
      have hs : statusOf s.1 y = some t.status := by
        unfold statusOf
        rw [hf]
        rfl
      rw [hs]
      constructor
      · intro hh
        have hh2 := Option.some.inj hh
        split_ifs at hh2
        all_goals
          first
            | (rw [hh2])
            | (exact absurd hh2 (by decide))
            | simp_all
      · intro hh
        have hh2 := Option.some.inj hh
        split_ifs
        all_goals
          first
            | (rw [hh2])
            | (exact absurd hh2 (by decide))
            | simp_all
  · rw [statusOf_eval_other s hy]

theorem statusOf_foldEval_done_iff (l : List Nat) (y : Nat) (s : St) :
    (statusOf (foldEval l s).1 y = some Status.done) ↔
      (statusOf s.1 y = some Status.done) := by
  induction l generalizing s with
  | nil => rfl
  | cons x rest ih =>
    rw [foldEval_cons, ih, statusOf_eval_done_iff]

theorem unmetCount_congr_mem {d1 d2 : DB} (tid : Nat) (hdeps : d2.deps = d1.deps)
    (hun : ∀ p ∈ predEdges d1 tid, unmetAt d2 p = unmetAt d1 p) :
    unmetCount d2 tid = unmetCount d1 tid := by
  rw [unmetCount_eq_filter, unmetCount_eq_filter]
  have hpe : predEdges d2 tid = predEdges d1 tid := by
    unfold predEdges
    rw [hdeps]
  rw [hpe]
  exact congrArg List.length (List.filter_congr hun)

theorem depInvariantAt_of_done {d : DB} {T : Nat}
    (h : statusOf d T = some Status.done) : depInvariantAt d T := by
  intro hsome hpred
  rw [h]
  constructor
  · intro hu hne
    exact absurd rfl hne
  · intro hu
    simp

theorem batchColsRow_status (b : BatchArgs) (now : Nat) (t : Task) :
    (batchColsRow b now t).status = Option.getD b.status t.status := rfl

theorem batchColsRow_id (b : BatchArgs) (now : Nat) (t : Task) :
    (batchColsRow b now t).id = t.id := rfl

theorem applyBatchColumns_deps (b : BatchArgs) (tid : Nat) (db : DB) :
    (applyBatchColumns b tid db).deps = db.deps := rfl

theorem applyBatchColumns_log (b : BatchArgs) (tid : Nat) (db : DB) :
    (applyBatchColumns b tid db).log = db.log := rfl

theorem applyBatchColumns_now (b : BatchArgs) (tid : Nat) (db : DB) :
    (applyBatchColumns b tid db).now = db.now := rfl

theorem findTask_applyBatchColumns (b : BatchArgs) (tid : Nat) (db : DB) (x : Nat) :
    findTask (applyBatchColumns b tid db) x =
      (findTask db x).map (fun t => if t.id = tid then batchColsRow b db.now t else t) := by
  unfold findTask applyBatchColumns
  exact find?_map_of_id _ _ (by intro t; split <;> rfl) x

theorem findTask_applyBatchColumns_self {b : BatchArgs} {tid : Nat} {db : DB} {t : Task}
    (h : findTask db tid = some t) :
    findTask (applyBatchColumns b tid db) tid = some (batchColsRow b db.now t) := by
  rw [findTask_applyBatchColumns, h]
  have hid := findTask_mem_id h
  simp [hid]

theorem findTask_applyBatchColumns_other {b : BatchArgs} {tid x : Nat} {db : DB}
    (hx : x ≠ tid) :
    findTask (applyBatchColumns b tid db) x = findTask db x := by
  rw [findTask_applyBatchColumns]
  cases h : findTask db x with
  | none => rfl
  | some t =>
    have hid := findTask_mem_id h
    simp [hid, hx]

theorem isSome_applyBatchColumns (b : BatchArgs) (tid : Nat) (db : DB) (x : Nat) :
    (findTask (applyBatchColumns b tid db) x).isSome = (findTask db x).isSome := by
  rw [findTask_applyBatchColumns]
  cases findTask db x <;> rfl

theorem isSome_autoTrack (tid : Nat) (ti : String) (s : St) (x : Nat) :
    (findTask (taskAutoTrack tid ti s).1 x).isSome = (findTask s.1 x).isSome := by
  rw [isSome_findTask_statusOf, statusOf_autoTrack, ← isSome_findTask_statusOf]

theorem statusOf_logActivity (et : String) (ei : Nat) (ac : String)
    (fn : Option String) (ov nv : Option LogVal) (su : String) (s : St) (x : Nat) :
    statusOf (logActivity et ei ac fn ov nv su s).1 x = statusOf s.1 x := rfl

theorem statusOf_applyBatchColumns_other {b : BatchArgs} {tid x : Nat} (db : DB)
    (hx : x ≠ tid) :
    statusOf (applyBatchColumns b tid db) x = statusOf db x := by
  unfold statusOf
  rw [findTask_applyBatchColumns_other hx]

theorem isSome_batchStep {b : BatchArgs} {db : DB} {tid : Nat} {d2 : DB} {r : Task}
    (h : batchStep b db tid = Except.ok (d2, r)) (x : Nat) :
    (findTask d2 x).isSome = (findTask db x).isSome := by
  unfold batchStep at h
  cases hf : findTask db tid with
  | none =>
    rw [hf] at h
    exact Except.noConfusion h
  | some old =>
    simp only [hf] at h
    rw [Except.ok.injEq, Prod.mk.injEq] at h
    obtain ⟨hd2, -⟩ := h
    subst hd2
    cases hbs : b.status <;> cases hbp : b.priority <;> dsimp only <;>
      split_ifs <;>
      simp only [reevaluateDownstream_eq, isSome_foldEval, isSome_autoTrack,
        findTask_logActivity, commit_fst, isSome_applyBatchColumns]

theorem batchStep_deps {b : BatchArgs} {db : DB} {tid : Nat} {d2 : DB} {r : Task}
    (h : batchStep b db tid = Except.ok (d2, r)) :
    d2.deps = db.deps := by
  unfold batchStep at h
  cases hf : findTask db tid with
  | none =>
    rw [hf] at h
    exact Except.noConfusion h
  | some old =>
    simp only [hf] at h
    rw [Except.ok.injEq, Prod.mk.injEq] at h
    obtain ⟨hd2, -⟩ := h
    subst hd2
    cases hbs : b.status <;> cases hbp : b.priority <;> dsimp only <;>
      split_ifs <;>
      simp only [reevaluateDownstream_eq, foldEval_deps, autoTrack_deps,
        logActivity_deps, commit_fst, applyBatchColumns_deps]

theorem batchStep_done_iff {b : BatchArgs} {db : DB} {tid : Nat} {d2 : DB} {r : Task}
    (h : batchStep b db tid = Except.ok (d2, r)) {j : Nat} (hj : j ≠ tid) :
    (statusOf d2 j = some Status.done) ↔ (statusOf db j = some Status.done) := by
  unfold batchStep at h
  cases hf : findTask db tid with
  | none =>
    rw [hf] at h
    exact Except.noConfusion h
  | some old =>
    simp only [hf] at h
    rw [Except.ok.injEq, Prod.mk.injEq] at h
    obtain ⟨hd2, -⟩ := h
    subst hd2
    have hsfr : ∀ (d : DB), statusOf (applyBatchColumns b tid d) j = statusOf d j :=
      fun d => statusOf_applyBatchColumns_other d hj
    cases hbs : b.status <;> cases hbp : b.priority <;> dsimp only <;>
      split_ifs <;>
      simp only [reevaluateDownstream_eq, statusOf_foldEval_done_iff,
        statusOf_autoTrack, statusOf_logActivity, hsfr]

theorem batchStep_self_done {b : BatchArgs} {db : DB} {tid : Nat} {d2 : DB} {r : Task}
    (hst : b.status = some Status.done)
    (h : batchStep b db tid = Except.ok (d2, r)) :
    statusOf d2 tid = some Status.done := by
  unfold batchStep at h
  cases hf : findTask db tid with
  | none =>
    rw [hf] at h
    exact Except.noConfusion h
  | some old =>
    simp only [hf] at h
    rw [Except.ok.injEq, Prod.mk.injEq] at h
    obtain ⟨hd2, -⟩ := h
    subst hd2
    have hself : statusOf (applyBatchColumns b tid db) tid = some Status.done := by
      unfold statusOf
      rw [findTask_applyBatchColumns_self hf]
      show some (batchColsRow b db.now old).status = some Status.done
      rw [batchColsRow_status, hst]
      rfl
    cases hbp : b.priority <;>
      simp only [hst] <;> (try dsimp only) <;>
      split_ifs <;>
      simp only [reevaluateDownstream_eq, statusOf_foldEval_done_iff,
        statusOf_autoTrack, statusOf_logActivity] <;>
      exact hself

theorem batchBody_eq (b : BatchArgs) (db : DB) :
    batchBody b db = batchFold b (db, []) b.ids := rfl

theorem batchFold_nil (b : BatchArgs) (acc : DB × List Task) :
    batchFold b acc [] = Except.ok acc := rfl

theorem batchFold_cons_error {b : BatchArgs} {acc : DB × List Task} {x : Nat}
    {ids : List Nat} {e : String} (he : batchStep b acc.1 x = Except.error e) :
    batchFold b acc (x :: ids) = Except.error e := by
  unfold batchFold
  rw [List.foldlM_cons, he]
  rfl

theorem batchFold_cons_ok {b : BatchArgs} {acc : DB × List Task} {x : Nat}
    {ids : List Nat} {p : DB × Task} (hp : batchStep b acc.1 x = Except.ok p) :
    batchFold b acc (x :: ids) = batchFold b (p.1, acc.2 ++ [p.2]) ids := by
  unfold batchFold
  rw [List.foldlM_cons, hp]
  rfl

theorem batchStep_missing {b : BatchArgs} {db : DB} {tid : Nat}
    (hf : findTask db tid = none) :
    batchStep b db tid = Except.error ("Task " ++ toString tid ++ " not found") := by
  unfold batchStep
  rw [hf]

theorem batchStep_ok_of_found (b : BatchArgs) {db : DB} {tid : Nat} {old : Task}
    (hf : findTask db tid = some old) :
    ∃ d2 r, batchStep b db tid = Except.ok (d2, r) := by
  unfold batchStep
  simp only [hf]
  exact ⟨_, _, rfl⟩

theorem batchFold_error (b : BatchArgs) (db : DB) :
    ∀ (ids : List Nat) (acc : DB × List Task),
    (∀ x, (findTask acc.1 x).isSome = (findTask db x).isSome) →
    (∃ i ∈ ids, findTask db i = none) →
    ∃ j, findTask db j = none ∧
      batchFold b acc ids = Except.error ("Task " ++ toString j ++ " not found") := by
  intro ids
  induction ids with
  | nil =>
    intro acc hiso hmiss
    obtain ⟨i, hi, -⟩ := hmiss
    cases hi
  | cons x rest ih =>
    intro acc hiso hmiss
    cases hfx : findTask acc.1 x with
    | none =>
      have hdbx : findTask db x = none := by
        have hx := hiso x
        rw [hfx] at hx
        cases hdb : findTask db x with
        | none => rfl
        | some t => rw [hdb] at hx; cases hx
      exact ⟨x, hdbx, batchFold_cons_error (batchStep_missing hfx)⟩
    | some old =>
      obtain ⟨d2, r, hok⟩ := batchStep_ok_of_found b hfx
      obtain ⟨i, hi, hmi⟩ := hmiss
      have hirest : i ∈ rest := by
        rcases List.mem_cons.mp hi with hh | hh
        · subst hh
          have hx := hiso i
          rw [hfx, hmi] at hx
          cases hx
        · exact hh
      have hiso2 : ∀ y, (findTask d2 y).isSome = (findTask db y).isSome := by
        intro y
        rw [isSome_batchStep hok y, hiso y]
      obtain ⟨j, hj1, hj2⟩ := ih (d2, acc.2 ++ [r]) hiso2 ⟨i, hirest, hmi⟩
      exact ⟨j, hj1, by rw [batchFold_cons_ok hok]; exact hj2⟩

theorem depInvariantAt_congr {d1 d2 : DB} (T : Nat)
    (hso : (findTask d2 T).isSome = (findTask d1 T).isSome)
    (hpe : predEdges d2 T = predEdges d1 T)
    (hum : unmetCount d2 T = unmetCount d1 T)
    (hstT : statusOf d2 T = statusOf d1 T)
    (hinv : depInvariantAt d1 T) : depInvariantAt d2 T := by
  intro hsome hpred
  rw [hum, hstT]
  rw [hso] at hsome
  rw [hpe] at hpred
  exact hinv hsome hpred

theorem statusOf_applyBatchColumns_self {b : BatchArgs} {tid : Nat} {db : DB} {old : Task}
    (hf : findTask db tid = some old) :
    statusOf (applyBatchColumns b tid db) tid = some (Option.getD b.status old.status) := by
  unfold statusOf
  rw [findTask_applyBatchColumns_self hf]
  rfl

theorem reeval_establishes_inv {T tid : Nat} (s : St) (hT : T ∈ successorIds s.1 tid) :
    depInvariantAt (reevaluateDownstream tid s).1 T := by
  rw [reevaluateDownstream_eq]
  exact foldEval_establishes_inv s hT

theorem mem_successorIds_of_deps_eq {d2 d1 : DB} {x q : Nat}
    (hdeps : d2.deps = d1.deps) (h : (x, q) ∈ d1.deps) : x ∈ successorIds d2 q := by
  rw [successorIds_congr q hdeps]
  exact mem_successorIds h

theorem statusOf_reeval_nonsucc {T tid : Nat} {d0 : DB} (s : St)
    (hTd : (T, tid) ∉ d0.deps) (hdeps : s.1.deps = d0.deps) :
    statusOf (reevaluateDownstream tid s).1 T = statusOf s.1 T := by
  rw [reevaluateDownstream_eq]
  apply statusOf_foldEval_not_mem
  intro hm
  apply hTd
  have h2 := successorIds_mem hm
  rw [hdeps] at h2
  exact h2

theorem batchStep_noop_statusOf {b : BatchArgs} {db : DB} {tid : Nat} {d2 : DB} {r : Task}
    {old : Task} (hst : b.status = some Status.done) (hf : findTask db tid = some old)
    (hdone : old.status = Status.done)
    (h : batchStep b db tid = Except.ok (d2, r)) (x : Nat) :
    statusOf d2 x = statusOf db x := by
  unfold batchStep at h
  simp only [hf] at h
  rw [Except.ok.injEq, Prod.mk.injEq] at h
  obtain ⟨hd2, -⟩ := h
  subst hd2
  have hn5 : ¬(True ∧ ¬old.status = Status.done) := fun hc => hc.2 hdone
  have hn4 : ¬(True ∧ ¬old.status = Status.done ∧
      truthyQ (batchColsRow b db.now old).actualHours = false) := fun hc => hc.2.1 hdone
  cases hbp : b.priority <;> simp only [hst] <;> (try dsimp only) <;>
    rw [if_pos hdone, if_neg hn4, if_neg hn5] <;> (try split_ifs) <;>
    ((try simp only [statusOf_logActivity])
     by_cases hx : x = tid
     · rw [hx]
       show statusOf (applyBatchColumns b tid db) tid = statusOf db tid
       rw [statusOf_applyBatchColumns_self hf, hst, Option.getD_some]
       unfold statusOf
       rw [hf]
       show some Status.done = some old.status
       rw [hdone]
     · show statusOf (applyBatchColumns b tid db) x = statusOf db x
       exact statusOf_applyBatchColumns_other db hx)

theorem batchStep_establishes {b : BatchArgs} {db : DB} {tid : Nat} {d2 : DB} {r : Task}
    {old : Task} {T : Nat} (hst : b.status = some Status.done)
    (hf : findTask db tid = some old) (hdone : old.status ≠ Status.done)
    (h : batchStep b db tid = Except.ok (d2, r)) (hTd : (T, tid) ∈ db.deps) :
    depInvariantAt d2 T := by
  unfold batchStep at h
  simp only [hf] at h
  rw [Except.ok.injEq, Prod.mk.injEq] at h
  obtain ⟨hd2, -⟩ := h
  subst hd2
  cases hbp : b.priority <;> simp only [hst] <;> (try dsimp only) <;>
    rw [if_neg hdone, if_pos (And.intro trivial hdone)] <;> (try split_ifs) <;>
    (refine reeval_establishes_inv _ (mem_successorIds_of_deps_eq ?_ hTd)
     simp only [autoTrack_deps, logActivity_deps, commit_fst, applyBatchColumns_deps])

theorem batchStep_statusOf_frame {b : BatchArgs} {db : DB} {tid : Nat} {d2 : DB} {r : Task}
    {old : Task} {T : Nat} (hst : b.status = some Status.done)
    (hf : findTask db tid = some old) (hdone : old.status ≠ Status.done)
    (h : batchStep b db tid = Except.ok (d2, r)) (hTt : T ≠ tid)
    (hTd : (T, tid) ∉ db.deps) :
    statusOf d2 T = statusOf db T := by
  unfold batchStep at h
  simp only [hf] at h
  rw [Except.ok.injEq, Prod.mk.injEq] at h
  obtain ⟨hd2, -⟩ := h
  subst hd2
  cases hbp : b.priority <;> simp only [hst] <;> (try dsimp only) <;>
    rw [if_neg hdone, if_pos (And.intro trivial hdone)] <;> (try split_ifs) <;>
    (refine Eq.trans (statusOf_reeval_nonsucc _ hTd ?_) ?_
     · simp only [autoTrack_deps, logActivity_deps, commit_fst, applyBatchColumns_deps]
     · (try simp only [statusOf_autoTrack, statusOf_logActivity])
       exact statusOf_applyBatchColumns_other db hTt)

theorem batchStep_unmetAt_other {b : BatchArgs} {db : DB} {tid : Nat} {d2 : DB} {r : Task}
    {old : Task} {p : Nat} (hst : b.status = some Status.done)
    (hf : findTask db tid = some old) (hdone : old.status ≠ Status.done)
    (h : batchStep b db tid = Except.ok (d2, r)) (hp : p ≠ tid) :
    unmetAt d2 p = unmetAt db p := by
  unfold batchStep at h
  simp only [hf] at h
  rw [Except.ok.injEq, Prod.mk.injEq] at h
  obtain ⟨hd2, -⟩ := h
  subst hd2
  cases hbp : b.priority <;> simp only [hst] <;> (try dsimp only) <;>
    rw [if_neg hdone, if_pos (And.intro trivial hdone)] <;> (try split_ifs) <;>
    (rw [reevaluateDownstream_eq, unmetAt_foldEval]
     exact unmetAt_congr p
       (by (try simp only [statusOf_autoTrack, statusOf_logActivity])
           exact statusOf_applyBatchColumns_other db hp))

theorem batchStep_inv {b : BatchArgs} {db : DB} {tid : Nat} {d2 : DB} {r : Task}
    (hst : b.status = some Status.done)
    (h : batchStep b db tid = Except.ok (d2, r)) (T : Nat)
    (hcase : depInvariantAt db T ∨
      ((T, tid) ∈ db.deps ∧ statusOf db tid ≠ some Status.done)) :
    depInvariantAt d2 T := by
  by_cases hTt : T = tid
  · subst hTt
    exact depInvariantAt_of_done (batchStep_self_done hst h)
  · cases hf : findTask db tid with
    | none =>
      rw [batchStep_missing hf] at h
      cases h
    | some old =>
      by_cases hdone : old.status = Status.done
      · rcases hcase with hinv | ⟨-, hnd⟩
        · exact depInvariant_transport T
            (batchStep_noop_statusOf hst hf hdone h) (batchStep_deps h) hinv
        · refine absurd ?_ hnd
          unfold statusOf
          rw [hf]
          show some old.status = some Status.done
          rw [hdone]
      · by_cases hTd : (T, tid) ∈ db.deps
        · exact batchStep_establishes hst hf hdone h hTd
        · rcases hcase with hinv | ⟨hmem, -⟩
          · refine depInvariantAt_congr T (isSome_batchStep h T) ?_ ?_
              (batchStep_statusOf_frame hst hf hdone h hTt hTd) hinv
            · unfold predEdges
              rw [batchStep_deps h]
            · refine unmetCount_congr_mem T (batchStep_deps h) ?_
              intro p hp
              have hptid : p ≠ tid := by
                intro hh
                subst hh
                exact hTd (predEdges_mem hp)
              exact batchStep_unmetAt_other hst hf hdone h hptid
          · exact absurd hmem hTd

theorem batchFold_inv (b : BatchArgs) (hst : b.status = some Status.done) (T : Nat) :
    ∀ (ids : List Nat) (acc out : DB × List Task),
    batchFold b acc ids = Except.ok out →
    (depInvariantAt acc.1 T ∨
      ∃ j ∈ ids, (T, j) ∈ acc.1.deps ∧ statusOf acc.1 j ≠ some Status.done) →
    depInvariantAt out.1 T := by
  intro ids
  induction ids with
  | nil =>
    intro acc out hfold hcase
    have hao : acc = out := by
      rw [batchFold_nil] at hfold
      exact Except.ok.inj hfold
    rcases hcase with hinv | ⟨j, hj, -⟩
    · exact hao ▸ hinv
    · cases hj
  | cons x rest ih =>
    intro acc out hfold hcase
    cases hsx : batchStep b acc.1 x with
    | error e =>
      rw [batchFold_cons_error hsx] at hfold
      cases hfold
    | ok p =>
      rw [batchFold_cons_ok hsx] at hfold
      refine ih (p.1, acc.2 ++ [p.2]) out hfold ?_
      have hsx2 : batchStep b acc.1 x = Except.ok (p.1, p.2) := by rw [hsx]
      by_cases hTx : T = x
      · left
        subst hTx
        exact depInvariantAt_of_done (batchStep_self_done hst hsx2)
      · by_cases hx : (T, x) ∈ acc.1.deps ∧ statusOf acc.1 x ≠ some Status.done
        · left
          exact batchStep_inv hst hsx2 T (Or.inr hx)
        · rcases hcase with hinv | ⟨j, hj, hjprop⟩
          · left
            exact batchStep_inv hst hsx2 T (Or.inl hinv)
          · right
            have hjx : j ≠ x := by
              intro hh
              subst hh
              exact hx hjprop
            have hjrest : j ∈ rest := by
              rcases List.mem_cons.mp hj with hh | hh
              · exact absurd hh hjx
              · exact hh
            refine ⟨j, hjrest, ?_, ?_⟩
            · rw [batchStep_deps hsx2]
              exact hjprop.1
            · intro hh
              exact hjprop.2 ((batchStep_done_iff hsx2 hjx).mp hh)

/-! ### Claim theorems: atomicity and the blocking invariant -/

/-- C4: when at least one field change is supplied and some id of the batch
does not refer to an existing task, the whole batch update fails with a
NotFound error naming a missing task, the database is left exactly as it was
and nothing is committed: no task of the batch is modified and no audit entry
of the batch is visible. -/
theorem c4_batch_atomicity (db : DB) (b : BatchArgs)
    (hfield : ¬((b.status).isNone = true ∧ (b.priority).isNone = true ∧
      (b.assignedTo).isNone = true))
    (hmiss : ∃ i ∈ b.ids, findTask db i = none) :
    (∃ j, findTask db j = none ∧
      (handleTaskBatchUpdate db b).outcome =
        Except.error ("Task " ++ toString j ++ " not found")) ∧
    (handleTaskBatchUpdate db b).db = db ∧
    (handleTaskBatchUpdate db b).trace = [] := by
  obtain ⟨j, hj1, hj2⟩ := batchFold_error b db b.ids (db, []) (fun x => rfl) hmiss
  have hbody : batchBody b db = Except.error ("Task " ++ toString j ++ " not found") := by
    rw [batchBody_eq]
    exact hj2
  unfold handleTaskBatchUpdate
  rw [if_neg hfield, hbody]
  exact ⟨⟨j, hj1, rfl⟩, rfl, rfl⟩

/-- C1 (amended): the blocking invariant holds for a task immediately after an
update replaces its predecessor set, and for every dependent of a task
immediately after a mutation moves that task from a non-done status into
`done`, whether by a single-task update or by a successful batch update. -/
theorem c1_blocking_invariant (db : DB) :
    (∀ (a : UpdateArgs) (t0 : Task) (l : List Nat), findTask db a.id = some t0 →
      a.dependsOn = some l → depInvariantAt (handleTaskUpdate db a).db a.id) ∧
    (∀ (a : UpdateArgs) (tp : Task) (T : Nat), findTask db a.id = some tp →
      tp.status ≠ Status.done → a.status = some Status.done → (T, a.id) ∈ db.deps →
      depInvariantAt (handleTaskUpdate db a).db T) ∧
    (∀ (b : BatchArgs) (tid T : Nat),
      b.status = some Status.done →
      (handleTaskBatchUpdate db b).outcome.isOk = true →
      tid ∈ b.ids → (T, tid) ∈ db.deps → statusOf db tid ≠ some Status.done →
      depInvariantAt (handleTaskBatchUpdate db b).db T) := by
  refine ⟨?_, ?_, ?_⟩
  · intro a t0 l h hd
    exact handleTaskUpdate_inv_replaced h hd
  · intro a tp T h hnd hst hT
    exact handleTaskUpdate_inv_pred_done h hnd hst hT
  · intro b tid T hst hok htid hTd hnd
    have hv : ¬((b.status).isNone = true ∧ (b.priority).isNone = true ∧
        (b.assignedTo).isNone = true) := by
      intro hc
      rw [hst] at hc
      exact absurd hc.1 (by decide)
    unfold handleTaskBatchUpdate at hok ⊢
    rw [if_neg hv] at hok ⊢
    cases hb : batchBody b db with
    | error m =>
      simp only [hb] at hok
      exact Bool.noConfusion hok
    | ok p =>
      obtain ⟨d, ts2⟩ := p
      simp only [hb]
      show depInvariantAt d T
      refine batchFold_inv b hst T b.ids (db, []) (d, ts2) ?_ ?_
      · rw [← batchBody_eq]
        exact hb
      · exact Or.inr ⟨tid, htid, hTd, hnd⟩

/-- C1 counterexample to the original trigger list: in `dbCE` task 1 (status
`todo`) depends only on task 2 (status `done`), so its invariant holds; a
single-task update that mutates the predecessor task 2 to status `todo`
commits, task 1 now has an unmet predecessor but is still `todo`, so the
invariant does not hold after this status mutation of a predecessor — only a
transition into `done` (or a predecessor-set replacement) reestablishes it. -/
theorem c1_any_status_mutation_counterexample :
    ¬ depInvariantAt (handleTaskUpdate dbCE { mkArgs 2 with status := some Status.todo }).db 1 := by
  decide

/-- C3: `handleTaskUpdate` commits every SQL statement on its own (nothing
wraps it in a transaction, unlike the batch, import, notes and template
handlers), so a single-task update is not one atomic unit.  Updating task 1
of `dbC3` with dependency list `[2]` (task 2 not `done`) commits five
separate states; the second committed state already stores the new edge
`(1, 2)` while task 1 still shows its stale status `todo`, though the
operation finally leaves task 1 `blocked`: an observer between commits sees
an updated edge set with a stale status. -/
theorem c3_no_transaction :
    (handleTaskUpdate dbC3 { mkArgs 1 with dependsOn := some [2] }).trace.length = 5 ∧
    ((handleTaskUpdate dbC3 { mkArgs 1 with dependsOn := some [2] }).trace.get? 1).map
      (fun d => (d.deps, statusOf d 1)) = some ([(1, 2)], some Status.todo) ∧
    statusOf (handleTaskUpdate dbC3 { mkArgs 1 with dependsOn := some [2] }).db 1 =
      some Status.blocked := by
  exact ⟨by decide, by decide, by decide⟩

/-- C8 counterexample to the unconditional original reading: task 1 of
`dbAuto` moves into `done` with no caller-supplied actual-effort, its most
recent transition into `in_progress` is on record and the elapsed time rounds
to 2.5 hours, yet because the task already carries `actual_hours = 5` the
code stores nothing: the stored value stays 5 and no audit entry is appended
(the log grows only by the status change). -/
theorem c8_preexisting_hours_counterexample :
    actualHoursOf (handleTaskUpdate dbAuto { mkArgs 1 with status := some Status.done }).db 1 =
      some (some 5) ∧
    latestInProgressEntry dbAuto 1 ≠ none ∧
    roundHours ((dbAuto.now : ℤ) - (startEntry1.createdAt : ℤ)) = Rat.divInt 5 2 ∧
    (handleTaskUpdate dbAuto { mkArgs 1 with status := some Status.done }).db.log.length = 2 := by
  exact ⟨by decide, by decide, by decide, by decide⟩

/-- C9 counterexample to the exactly-two-entries reading: a single update of
task 1 of `dbAuto0` that changes both status (to `done`) and priority also
fires the automatic time tracking, so three audit entries are appended (one
`status_changed`, one priority `updated`, one `actual_hours` `updated`), not
two. -/
theorem c9_exactly_two_entries_counterexample :
    (handleTaskUpdate dbAuto0 { mkArgs 1 with
        status := some Status.done, priority := some Priority.high }).db.log.length = 4 ∧
    dbAuto0.log.length = 1 ∧
    ((handleTaskUpdate dbAuto0 { mkArgs 1 with
        status := some Status.done, priority := some Priority.high }).db.log.filter
      (ahBool 1)).length = 1 := by
  exact ⟨by decide, by decide, by decide⟩

/-! ### Concrete witnesses for the claim theorems -/

theorem c1_blocking_invariant_witness :
    depInvariantAt (handleTaskUpdate dbChain { mkArgs 1 with status := some Status.done }).db 2 ∧
    depInvariantAt (handleTaskBatchUpdate dbChain ⟨[1], some Status.done, none, none⟩).db 2 ∧
    depInvariantAt (handleTaskUpdate dbC3 { mkArgs 1 with dependsOn := some [2] }).db 1 :=
  ⟨(c1_blocking_invariant dbChain).2.1 { mkArgs 1 with status := some Status.done }
      (mkTask 1 Status.inProgress) 2 (by decide) (by decide) (by decide) (by decide),
   (c1_blocking_invariant dbChain).2.2 ⟨[1], some Status.done, none, none⟩ 1 2
      (by decide) (by decide) (by decide) (by decide) (by decide),
   (c1_blocking_invariant dbC3).1 { mkArgs 1 with dependsOn := some [2] }
      (mkTask 1 Status.todo) [2] (by decide) (by decide)⟩

theorem c2_status_resolver_witness :
    statusOf (evaluateAndUpdateDependencies 2 (dbChain, [])).1 2 =
      some (if predEdges dbChain 2 = [] then (mkTask 2 Status.blocked).status
        else if 0 < unmetCount dbChain 2 ∧ (mkTask 2 Status.blocked).status ≠ Status.blocked ∧
            (mkTask 2 Status.blocked).status ≠ Status.done
          then Status.blocked
        else if unmetCount dbChain 2 = 0 ∧ (mkTask 2 Status.blocked).status = Status.blocked
          then Status.todo
        else (mkTask 2 Status.blocked).status) ∧
    (predEdges dbChain 2 = [] → evaluateAndUpdateDependencies 2 (dbChain, []) = (dbChain, [])) :=
  c2_status_resolver dbChain [] 2 (mkTask 2 Status.blocked) (by decide)

theorem c4_batch_atomicity_witness :
    (∃ j, findTask dbChain j = none ∧
      (handleTaskBatchUpdate dbChain ⟨[1, 2, 999], some Status.done, none, none⟩).outcome =
        Except.error ("Task " ++ toString j ++ " not found")) ∧
    (handleTaskBatchUpdate dbChain ⟨[1, 2, 999], some Status.done, none, none⟩).db = dbChain ∧
    (handleTaskBatchUpdate dbChain ⟨[1, 2, 999], some Status.done, none, none⟩).trace = [] :=
  c4_batch_atomicity dbChain ⟨[1, 2, 999], some Status.done, none, none⟩ (by decide)
    ⟨999, by decide, by decide⟩

theorem c5_cascade_single_hop_witness :
    statusOf (handleTaskUpdate dbChain { mkArgs 1 with status := some Status.done }).db 2 =
      some Status.todo ∧
    statusOf (handleTaskUpdate dbChain { mkArgs 1 with status := some Status.done }).db 3 =
      some Status.blocked ∧
    ∀ x, x ≠ 1 → (x, 1) ∉ dbChain.deps →
      statusOf (handleTaskUpdate dbChain { mkArgs 1 with status := some Status.done }).db x =
        statusOf dbChain x :=
  @c5_cascade_single_hop dbChain { mkArgs 1 with status := some Status.done }
    (mkTask 1 Status.inProgress) 2 3 (by decide) (by decide) (by decide) (by decide)
    (by decide) (by decide) (by decide) (by decide) (by decide) (by decide) (by decide)
    (by decide)

theorem c7_edge_set_nodup_witness :
    (setDependencies 1 [2, 2, 3] ((dbC3, []) : St)).1.deps.Nodup :=
  c7_edge_set_nodup 1 [2, 2, 3] (dbC3, []) (by decide)

theorem c8_auto_time_tracking_witness :
    actualHoursOf (handleTaskUpdate dbAuto0 { mkArgs 1 with status := some Status.done }).db 1 =
      some (some (Rat.divInt 5 2)) := by
  have h := @c8_auto_time_tracking dbAuto0 { mkArgs 1 with status := some Status.done }
    (mkTask 1 Status.inProgress) (by decide) (by decide) (by decide) (by decide) (by decide)
  have hlat : latestInProgressEntry dbAuto0 1 = some startEntry1 := by decide
  have hv := (h.2.2 startEntry1 hlat).1 (by decide)
  exact hv.1.trans (by decide)

theorem c9_status_priority_audit_witness :
    (handleTaskUpdate dbC3 { mkArgs 1 with
        status := some Status.inProgress, priority := some Priority.high }).db.log.length = 2 := by
  have h := @c9_status_priority_audit dbC3
    { mkArgs 1 with status := some Status.inProgress, priority := some Priority.high }
    (mkTask 1 Status.todo) Status.inProgress Priority.high (by decide) (by decide)
    (by decide) (by decide) (by decide) (by decide) (by decide) (by decide) (by decide)
  exact (congrArg List.length h).trans (by decide)

theorem c10_untracked_update_no_audit_witness :
    (handleTaskUpdate dbC3 { mkArgs 1 with estimatedHours := some 3 }).db.log = dbC3.log :=
  c10_untracked_update_no_audit dbC3 { mkArgs 1 with estimatedHours := some 3 }
    (by decide) (by decide) (by decide) (by decide) (by decide)

end Saga